import Mathlib

/-!
# Pass sequencing of the pik codec entry points

A shallow embedding of `PixelsToPik` and `PikToPixels` (src/pik.cc).

Both functions are orchestration code: they call operations declared in
headers that are not among the sources (`MakeFileHeader`, `AddPass`,
`PixelsToPikPass`, `ReadFileHeader`, `PikPassToPixels`, ...).  Those
operations are taken as parameters, collected in `Env`: each is a function
from the objects it can reach (through its arguments and the pointers held
by them) to a `Status` and the new contents of those objects.  The theorems
hold for every `Env`.

The embedding threads the mutable objects explicitly and records, in a
`trace`, every call made to such an operation together with the arguments
the properties proved below speak about.  The operations never see the trace.

Two smaller parts follow: the coefficient tiers described in
src/ac_predictions.h and the polynomial evaluation of
src/butteraugli/butteraugli.h.
-/

namespace Pik

/-! ## Data model -/

/-- Tri-state option of pik_params.h (`Override::kOn`, `kOff`, `kDefault`). -/
inductive Override where
  | kOn
  | kOff
  | kDefault
  deriving DecidableEq, Repr

/-- Result of an operation: `return true` is `ok`, `PIK_FAILURE(reason)` and
every failure handed on by `PIK_RETURN_IF_ERROR` is `failure reason`. -/
inductive Status where
  | ok
  | failure (reason : String)
  deriving DecidableEq, Repr

/-- Modelled from the spec: the scope of a pass (`ProgressiveMode`, declared in
a header that is not among the sources).  "Scope is one of: LF-only, HF-only,
HF-restricted-to-salient-region, HF-restricted-to-non-salient-region, full
(lossless) image." -/
inductive ProgressiveMode where
  | kFull
  | kLfOnly
  | kHfOnly
  | kSalientHfOnly
  | kNonSalientHfOnly
  deriving DecidableEq, Repr

/-- Byte buffer (`PaddedBytes`): the sequence of its bytes, `compressed.size()`
is its length. -/
abbrev PaddedBytes := List Nat

/-- Statistics sink `PikInfo* aux_out`; its contents are not inspected here. -/
abbrev PikInfo := List Nat

/-- Image plane `ImageF` (here: the saliency map); contents not inspected. -/
abbrev ImageF := List Nat

/-- The fields of `CompressParams` that src/pik.cc reads or writes; `other`
stands for all remaining fields of the struct.  `butteraugli_distance` is a
`float` in the source; it is only compared with a threshold, and is a rational
here. -/
structure CompressParams where
  butteraugli_distance : Rat
  adaptive_reconstruction : Override
  gradient : Override
  predict_lf : Bool
  predict_hf : Bool
  lossless_mode : Bool
  progressive_mode : Bool
  lossless_base : String
  saliency_extractor_for_progressive_mode : String
  other : List Nat
  deriving DecidableEq, Repr

/-- The field of `DecompressParams` that src/pik.cc reads; `other` stands for
the remaining fields. -/
structure DecompressParams where
  check_decompressed_size : Bool
  other : List Nat
  deriving DecidableEq, Repr

/-- Per-pass parameters (`PassParams`). -/
structure PassParams where
  is_last : Bool
  deriving DecidableEq, Repr

/-- The image container `CodecInOut` as far as src/pik.cc uses it: the codec
context it was created with, the dimensions, whether the original bit depth is
recorded, the `enc_size` field and the pixel payload. -/
structure CodecInOut where
  context : Nat
  xsize : Nat
  ysize : Nat
  has_original_bits_per_sample : Bool
  enc_size : Nat
  pixels : List Nat
  deriving DecidableEq, Repr

/-- Accessor `io->HasOriginalBitsPerSample()`. -/
def CodecInOut.HasOriginalBitsPerSample (io : CodecInOut) : Bool :=
  io.has_original_bits_per_sample

/-- Constructor `CodecInOut base_io(io->Context())`: an empty image bound to
a codec context. -/
def CodecInOut.create (context : Nat) : CodecInOut :=
  { context := context, xsize := 0, ysize := 0,
    has_original_bits_per_sample := false, enc_size := 0, pixels := [] }

/-- The file header `FileHeader`: `preview.size_bits` and the remaining
fields. -/
structure FileHeader where
  preview_size_bits : Nat
  fields : List Nat
  deriving DecidableEq, Repr

/-- Modelled from the spec: the pass accumulator `SingleImageManager`
(single_image_handler.h is not among the sources).  "Mutable state tracking
which scope is configured for the next pass and whether the most recently
decoded pass was the last"; the adaptive-reconstruction switch and the
saliency map are the two other things src/pik.cc sets on it, and `internal`
stands for whatever else the pass operations keep in it. -/
structure SingleImageManager where
  mode : ProgressiveMode
  use_adaptive_reconstruction : Bool
  saliency_map : Option ImageF
  is_last_pass : Bool
  internal : List Nat
  deriving DecidableEq, Repr

/-- Modelled from the spec: a default-constructed `SingleImageManager`
(`SingleImageManager transform;`); its scope is the full image, no pass has
been seen. -/
def SingleImageManager.create : SingleImageManager :=
  { mode := ProgressiveMode.kFull, use_adaptive_reconstruction := false,
    saliency_map := none, is_last_pass := false, internal := [] }

/-- Modelled from the spec: `transform.UseAdaptiveReconstruction()`. -/
def SingleImageManager.UseAdaptiveReconstruction (t : SingleImageManager) :
    SingleImageManager :=
  { t with use_adaptive_reconstruction := true }

/-- Modelled from the spec: `transform.SetProgressiveMode(mode)` configures
the scope of the next pass. -/
def SingleImageManager.SetProgressiveMode (t : SingleImageManager)
    (mode : ProgressiveMode) : SingleImageManager :=
  { t with mode := mode }

/-- Modelled from the spec: `transform.SetSaliencyMap(saliency_map)`. -/
def SingleImageManager.SetSaliencyMap (t : SingleImageManager)
    (saliency_map : Option ImageF) : SingleImageManager :=
  { t with saliency_map := saliency_map }

/-- Modelled from the spec: `transform.IsLastPass()`, "whether the most
recently decoded pass was the last". -/
def SingleImageManager.IsLastPass (t : SingleImageManager) : Bool :=
  t.is_last_pass

/-- The objects a `PikMultipassEncoder` reaches: its own state and, through
the pointers given to its constructor, the output buffer, the accumulator and
the statistics sink. -/
structure EncoderHeap where
  encoder : List Nat
  compressed : PaddedBytes
  transform : SingleImageManager
  aux_out : PikInfo
  deriving DecidableEq, Repr

/-- Modelled from the spec: the bit reader `BitReader` (declared in a header
that is not among the sources): the bytes handed to its constructor and a bit
cursor. -/
structure BitReader where
  data : PaddedBytes
  bits : Nat
  deriving DecidableEq, Repr

/-- Constructor `BitReader reader(compressed.data(), compressed.size())`. -/
def BitReader.create (compressed : PaddedBytes) : BitReader :=
  { data := compressed, bits := 0 }

/-- Modelled from the spec: `reader.SkipBits(n)`, "skip exactly
`preview.size_bits` bits": the cursor advances by `n` bits. -/
def BitReader.SkipBits (r : BitReader) (n : Nat) : BitReader :=
  { r with bits := r.bits + n }

/-- The objects `PikPassToPixels` reaches through its pointer arguments. -/
structure DecoderHeap where
  reader : BitReader
  io : CodecInOut
  aux_out : PikInfo
  transform : SingleImageManager
  deriving DecidableEq, Repr

/-- The operations src/pik.cc calls whose code is not among the sources.  A
`Status` comes with the new contents of every object the operation can
write, also when it fails. -/
structure Env where
  /-- Constant of the same name. -/
  kMinButteraugliForAdaptiveReconstruction : Rat
  /-- Constant of the same name. -/
  kBitsPerByte : Nat
  /-- Helper `DivCeil(a, b)`. -/
  DivCeil : Nat → Nat → Nat
  /-- Helper `ApplyOverride(override, default_condition)`. -/
  ApplyOverride : Override → Bool → Bool
  /-- Fills a header from parameters and image: `MakeFileHeader(cparams, io, &container)`. -/
  MakeFileHeader : CompressParams → CodecInOut → FileHeader
  /-- Size query `CanEncode(container, &extension_bits, &total_bits)`. -/
  CanEncode : FileHeader → Bool × Nat × Nat
  /-- Method `compressed->resize(n)`. -/
  resize : PaddedBytes → Nat → PaddedBytes
  /-- Writer `WriteFileHeader(container, extension_bits, &pos, data)`: status, new `pos`, new bytes. -/
  WriteFileHeader : FileHeader → Nat → Nat → PaddedBytes → Status × Nat × PaddedBytes
  /-- Loader `base_io.SetFromFile(path, pool)`. -/
  SetFromFile : CodecInOut → String → Status × CodecInOut
  /-- Single-pass encoder `PixelsToPikPass(cparams, pass_params, io, pool, compressed, pos, aux_out, &transform)`. -/
  PixelsToPikPass : CompressParams → PassParams → CodecInOut → PaddedBytes → Nat →
    PikInfo → SingleImageManager → Status × PaddedBytes × PikInfo × SingleImageManager
  /-- Constructor `PikMultipassEncoder encoder(container, compressed, &transform, aux_out)`. -/
  NewEncoder : FileHeader → PaddedBytes → SingleImageManager → PikInfo → EncoderHeap
  /-- Method `encoder.AddPass(p, pass_params, io, pool)`. -/
  AddPass : CompressParams → PassParams → CodecInOut → EncoderHeap → Status × EncoderHeap
  /-- Method `encoder.Finalize()`. -/
  Finalize : EncoderHeap → Status × EncoderHeap
  /-- Oracle `ProduceSaliencyMap(cparams, compressed, io, pool, &saliency_map)`. -/
  ProduceSaliencyMap : CompressParams → PaddedBytes → CodecInOut →
    Status × PaddedBytes × Option ImageF
  /-- Parser `ReadFileHeader(&reader, &container)`. -/
  ReadFileHeader : BitReader → Status × BitReader × FileHeader
  /-- Accessor `reader.Position()`. -/
  Position : BitReader → Nat
  /-- Single-pass decoder `PikPassToPixels(dparams, compressed, container, pool, &reader, io, aux_out, &transform)`. -/
  PikPassToPixels : DecompressParams → PaddedBytes → FileHeader → DecoderHeap →
    Status × DecoderHeap

/-! ## Encoder: `PixelsToPik` -/

/-- One call made by `PixelsToPik` to an operation of `Env`, with the
arguments it was given (for a pass: the accumulator as it stood when the call
was made) and the status it returned. -/
inductive Call where
  | MakeFileHeader
  | CanEncode
  | WriteFileHeader (status : Status)
  | NewEncoder
  | SetFromFile (path : String) (status : Status)
  | ProduceSaliencyMap (cparams : CompressParams) (status : Status)
  | PixelsToPikPass (cparams : CompressParams) (pass_params : PassParams)
      (image : CodecInOut) (pos : Nat) (transform : SingleImageManager) (status : Status)
  | AddPass (p : CompressParams) (pass_params : PassParams) (image : CodecInOut)
      (transform : SingleImageManager) (status : Status)
  | Finalize (status : Status)
  deriving DecidableEq, Repr

/-- What `PixelsToPik` leaves behind when it returns. -/
structure EncodeResult where
  status : Status
  compressed : PaddedBytes
  aux_out : PikInfo
  trace : List Call
  deriving DecidableEq, Repr

/-- The encoder objects together with the calls made so far. -/
structure EncodeState where
  heap : EncoderHeap
  trace : List Call
  deriving DecidableEq, Repr

/-- Leaving `PixelsToPik` from inside a multipass branch. -/
def EncodeState.finish (s : EncodeState) (status : Status) : EncodeResult :=
  { status := status, compressed := s.heap.compressed, aux_out := s.heap.aux_out,
    trace := s.trace }

/-- Call `encoder.AddPass(p, pass_params, image, pool)`. -/
def addPass (env : Env) (p : CompressParams) (pass_params : PassParams)
    (image : CodecInOut) (s : EncodeState) : Status × EncodeState :=
  let r := env.AddPass p pass_params image s.heap
  (r.1, { heap := r.2,
          trace := s.trace ++ [Call.AddPass p pass_params image s.heap.transform r.1] })

/-- Call `encoder.Finalize()`. -/
def finalize (env : Env) (s : EncodeState) : Status × EncodeState :=
  let r := env.Finalize s.heap
  (r.1, { heap := r.2, trace := s.trace ++ [Call.Finalize r.1] })

/-- Construct `SingleImageManager transform; PikMultipassEncoder encoder(container,
compressed, &transform, aux_out);`. -/
def newEncoder (env : Env) (container : FileHeader) (compressed : PaddedBytes)
    (aux_out : PikInfo) (trace : List Call) : EncodeState :=
  { heap := env.NewEncoder container compressed SingleImageManager.create aux_out,
    trace := trace ++ [Call.NewEncoder] }

/-- The statement `if (ApplyOverride(cparams.adaptive_reconstruction,
cparams.butteraugli_distance >= kMinButteraugliForAdaptiveReconstruction))
transform.UseAdaptiveReconstruction();`. -/
def applyAdaptiveReconstruction (env : Env) (cparams : CompressParams)
    (s : EncodeState) : EncodeState :=
  if env.ApplyOverride cparams.adaptive_reconstruction
      (decide (env.kMinButteraugliForAdaptiveReconstruction ≤ cparams.butteraugli_distance))
  then { s with heap := { s.heap with transform := s.heap.transform.UseAdaptiveReconstruction } }
  else s

/-- Apply a setter of the accumulator to `transform`. -/
def EncodeState.onTransform (s : EncodeState)
    (f : SingleImageManager → SingleImageManager) : EncodeState :=
  { s with heap := { s.heap with transform := f s.heap.transform } }

/-- The macro `PIK_RETURN_IF_ERROR(call)`: a failing call makes the function
return that failure at once; otherwise the rest of the function runs. -/
def PIK_RETURN_IF_ERROR (r : Status × EncodeState) (rest : EncodeState → EncodeResult) :
    EncodeResult :=
  match r.1 with
  | Status.ok => rest r.2
  | Status.failure reason => r.2.finish (Status.failure reason)

/-- Reason given by `PixelsToPik` for an image without pixels. -/
def kEmptyImage : String := "Empty image"

/-- Reason given by `PixelsToPik` for an image without bit-depth metadata. -/
def kNoBitDepth : String :=
  "Pik requires specifying original bit depth of the pixels to encode as metadata."

/-- Lines 71-97 of src/pik.cc: the branch taken when `cparams.lossless_base`
is not empty. -/
def PixelsToPik.losslessBase (env : Env) (cparams : CompressParams) (io : CodecInOut)
    (container : FileHeader) (compressed : PaddedBytes) (aux_out : PikInfo)
    (trace : List Call) : EncodeResult :=
  let s := newEncoder env container compressed aux_out trace
  let p := cparams
  let s := applyAdaptiveReconstruction env cparams s
  -- Lossless base.
  let base := env.SetFromFile (CodecInOut.create io.context) cparams.lossless_base
  let s := { s with trace := s.trace ++ [Call.SetFromFile cparams.lossless_base base.1] }
  match base.1 with
  | Status.failure reason => s.finish (Status.failure reason)
  | Status.ok =>
    let p := { p with adaptive_reconstruction := Override.kOff }
    let p := { p with lossless_mode := true }
    PIK_RETURN_IF_ERROR (addPass env p { is_last := false } base.2 s) fun s =>
    -- Final non-lossless pass.
    let p := { p with adaptive_reconstruction := cparams.adaptive_reconstruction }
    let p := { p with lossless_mode := false }
    PIK_RETURN_IF_ERROR (addPass env p { is_last := true } io s) fun s =>
    PIK_RETURN_IF_ERROR (finalize env s) fun s =>
    s.finish Status.ok

/-- Lines 99-111 of src/pik.cc: the branch taken when progressive mode is off.
`PIK_CHECK` ends the process when its condition is false: the result is
`none`. -/
def PixelsToPik.singlePass (env : Env) (cparams : CompressParams) (io : CodecInOut)
    (container : FileHeader) (compressed : PaddedBytes) (aux_out : PikInfo)
    (trace : List Call) : Option EncodeResult :=
  let sizes := env.CanEncode container
  let trace := trace ++ [Call.CanEncode]
  if sizes.1 = false then none
  else
    let extension_bits := sizes.2.1
    let total_bits := sizes.2.2
    let compressed := env.resize compressed (env.DivCeil total_bits env.kBitsPerByte)
    let pos := 0
    let written := env.WriteFileHeader container extension_bits pos compressed
    let trace := trace ++ [Call.WriteFileHeader written.1]
    match written.1 with
    | Status.failure reason =>
      some { status := Status.failure reason, compressed := written.2.2,
             aux_out := aux_out, trace := trace }
    | Status.ok =>
      let pos := written.2.1
      let compressed := written.2.2
      let pass_params : PassParams := { is_last := true }
      let transform := SingleImageManager.create
      let r := env.PixelsToPikPass cparams pass_params io compressed pos aux_out transform
      let trace := trace ++ [Call.PixelsToPikPass cparams pass_params io pos transform r.1]
      match r.1 with
      | Status.failure reason =>
        some { status := Status.failure reason, compressed := r.2.1,
               aux_out := r.2.2.1, trace := trace }
      | Status.ok =>
        some { status := Status.ok, compressed := r.2.1, aux_out := r.2.2.1,
               trace := trace }

/-- Lines 153-165 of src/pik.cc: the final non-lossless pass, the optional
lossless pass and `Finalize`. -/
def PixelsToPik.progressiveFinal (env : Env) (cparams : CompressParams) (io : CodecInOut)
    (lossless : Bool) (p : CompressParams) (pass_params : PassParams)
    (final_pass_progressive_mode : ProgressiveMode) (s : EncodeState) : EncodeResult :=
  -- Final non-lossless pass.
  let s := s.onTransform fun t => t.SetProgressiveMode final_pass_progressive_mode
  let p := { p with adaptive_reconstruction := cparams.adaptive_reconstruction }
  let pass_params : PassParams :=
    if !lossless then { pass_params with is_last := true } else pass_params
  PIK_RETURN_IF_ERROR (addPass env p pass_params io s) fun s =>
  if lossless then
    let pass_params : PassParams := { pass_params with is_last := true }
    let p := { p with lossless_mode := true }
    PIK_RETURN_IF_ERROR (addPass env p pass_params io s) fun s =>
    PIK_RETURN_IF_ERROR (finalize env s) fun s =>
    s.finish Status.ok
  else
    PIK_RETURN_IF_ERROR (finalize env s) fun s =>
    s.finish Status.ok

/-- Lines 112-166 of src/pik.cc: the branch taken when progressive mode is
on. -/
def PixelsToPik.progressive (env : Env) (cparams : CompressParams) (io : CodecInOut)
    (container : FileHeader) (compressed : PaddedBytes) (aux_out : PikInfo)
    (trace : List Call) : EncodeResult :=
  let lossless := cparams.lossless_mode
  let s := newEncoder env container compressed aux_out trace
  let p := cparams
  let pass_params : PassParams := { is_last := false }
  let p := { p with lossless_mode := false }
  let s := applyAdaptiveReconstruction env cparams s
  -- Disable adaptive reconstruction in intermediate passes.
  let p := { p with adaptive_reconstruction := Override.kOff }
  let pass_params : PassParams := { pass_params with is_last := false }
  -- DC + Low frequency pass.
  let s := s.onTransform fun t => t.SetProgressiveMode ProgressiveMode.kLfOnly
  PIK_RETURN_IF_ERROR (addPass env p pass_params io s) fun s =>
  -- Disable gradient map from here on.
  let p := { p with gradient := Override.kOff }
  -- DC + LF are 0, predictions are useless.
  let p := { p with predict_lf := false }
  let p := { p with predict_hf := false }
  -- Optional salient-regions high frequency pass.
  let final_pass_progressive_mode := ProgressiveMode.kHfOnly
  if cparams.saliency_extractor_for_progressive_mode ≠ "" then
    let m := env.ProduceSaliencyMap cparams s.heap.compressed io
    let s : EncodeState :=
      { heap := { s.heap with compressed := m.2.1 },
        trace := s.trace ++ [Call.ProduceSaliencyMap cparams m.1] }
    match m.1 with
    | Status.failure reason => s.finish (Status.failure reason)
    | Status.ok =>
      let saliency_map := m.2.2
      let final_pass_progressive_mode := ProgressiveMode.kNonSalientHfOnly
      let s := s.onTransform fun t => t.SetProgressiveMode ProgressiveMode.kSalientHfOnly
      let s := s.onTransform fun t => t.SetSaliencyMap saliency_map
      PIK_RETURN_IF_ERROR (addPass env p pass_params io s) fun s =>
      PixelsToPik.progressiveFinal env cparams io lossless p pass_params
        final_pass_progressive_mode s
  else
    PixelsToPik.progressiveFinal env cparams io lossless p pass_params
      final_pass_progressive_mode s

/-- The encoder entry point `PixelsToPik(cparams, io, compressed, aux_out, pool)`
(src/pik.cc, lines 57-168).  `none` is the process ending in `PIK_CHECK`. -/
def PixelsToPik (env : Env) (cparams : CompressParams) (io : CodecInOut)
    (compressed : PaddedBytes) (aux_out : PikInfo) : Option EncodeResult :=
  if io.xsize = 0 ∨ io.ysize = 0 then
    some { status := Status.failure kEmptyImage, compressed := compressed,
           aux_out := aux_out, trace := [] }
  else if !io.HasOriginalBitsPerSample then
    some { status := Status.failure kNoBitDepth, compressed := compressed,
           aux_out := aux_out, trace := [] }
  else
    let container := env.MakeFileHeader cparams io
    let trace := [Call.MakeFileHeader]
    if cparams.lossless_base ≠ "" then
      some (PixelsToPik.losslessBase env cparams io container compressed aux_out trace)
    else if !cparams.progressive_mode then
      PixelsToPik.singlePass env cparams io container compressed aux_out trace
    else
      some (PixelsToPik.progressive env cparams io container compressed aux_out trace)

/-! ## Decoder: `PikToPixels` -/

/-- The table `kBrunsliMagic`. -/
def kBrunsliMagic : List Nat :=
  [0x0A, 0x04, 'B'.toNat, 0xd2, 0xd5, 'N'.toNat, 0x12]

/-- The sniffing function `IsBrunsliFile(compressed)` (src/pik.cc, lines
38-47); `memcmp` compares the first `magic_size` bytes. -/
def IsBrunsliFile (compressed : PaddedBytes) : Bool :=
  let magic_size := kBrunsliMagic.length
  if compressed.length < magic_size then false
  else if compressed.take magic_size ≠ kBrunsliMagic then false
  else true

/-- One call made by `PikToPixels`; a pass is recorded with the objects it was
given and the objects it left. -/
inductive DecodeCall where
  | BrunsliToPixels
  | ReadFileHeader (status : Status)
  | SkipBits (n : Nat)
  | PikPassToPixels (before : DecoderHeap) (status : Status) (after : DecoderHeap)
  deriving DecidableEq, Repr

/-- What `PikToPixels` leaves behind when it returns. -/
structure DecodeResult where
  status : Status
  image : CodecInOut
  aux_out : PikInfo
  trace : List DecodeCall
  deriving DecidableEq, Repr

/-- The decoder objects together with the calls made so far. -/
structure DecodeState where
  heap : DecoderHeap
  trace : List DecodeCall
  deriving DecidableEq, Repr

/-- Reason given by `BrunsliToPixels`. -/
def kBrunsliNotImplemented : String := "Brunsli decoding is not implemented yet."

/-- Reason given by `PikToPixels` when the bytes read and the buffer differ in size. -/
def kSizeMismatch : String := "Pik compressed data size mismatch."

/-- The stub `BrunsliToPixels(dparams, compressed, io, aux_out, pool)`
(src/pik.cc, lines 49-53). -/
def BrunsliToPixels (_dparams : DecompressParams) (_compressed : PaddedBytes)
    (io : CodecInOut) (aux_out : PikInfo) : DecodeResult :=
  { status := Status.failure kBrunsliNotImplemented, image := io, aux_out := aux_out,
    trace := [DecodeCall.BrunsliToPixels] }

/-- The loop `do { PIK_RETURN_IF_ERROR(PikPassToPixels(...)); } while
(!transform.IsLastPass());` (src/pik.cc, lines 193-196), run for at most
`fuel` iterations; `none` when the loop is still running after that many. -/
def decodePasses (env : Env) (dparams : DecompressParams) (compressed : PaddedBytes)
    (container : FileHeader) : Nat → DecodeState → Option (Status × DecodeState)
  | 0, _ => none
  | fuel + 1, s =>
    let r := env.PikPassToPixels dparams compressed container s.heap
    let s : DecodeState :=
      { heap := r.2, trace := s.trace ++ [DecodeCall.PikPassToPixels s.heap r.1 r.2] }
    match r.1 with
    | Status.failure reason => some (Status.failure reason, s)
    | Status.ok =>
      if !s.heap.transform.IsLastPass then decodePasses env dparams compressed container fuel s
      else some (Status.ok, s)

/-- Lines 181-192 of src/pik.cc: create the reader, read the header, skip the
preview, create the accumulator.  Returns the status of `ReadFileHeader`, the
header and the objects the pass loop starts from. -/
def PikToPixels.start (env : Env) (compressed : PaddedBytes) (io : CodecInOut)
    (aux_out : PikInfo) : Status × FileHeader × DecodeState :=
  let reader := BitReader.create compressed
  let header := env.ReadFileHeader reader
  let trace := [DecodeCall.ReadFileHeader header.1]
  let reader := header.2.1
  let container := header.2.2
  -- Preview is discardable; just skip it, if any.
  let preview_size_bits := container.preview_size_bits
  let skipped : BitReader × List DecodeCall :=
    if preview_size_bits ≠ 0 then
      (reader.SkipBits preview_size_bits, trace ++ [DecodeCall.SkipBits preview_size_bits])
    else (reader, trace)
  let transform := SingleImageManager.create
  (header.1, container,
    { heap := { reader := skipped.1, io := io, aux_out := aux_out, transform := transform },
      trace := skipped.2 })

/-- The decoder entry point `PikToPixels(dparams, compressed, io, aux_out, pool)`
(src/pik.cc, lines 170-206), its pass loop run for at most `fuel` iterations. -/
def PikToPixels (env : Env) (fuel : Nat) (dparams : DecompressParams)
    (compressed : PaddedBytes) (io : CodecInOut) (aux_out : PikInfo) :
    Option DecodeResult :=
  if IsBrunsliFile compressed then
    some (BrunsliToPixels dparams compressed io aux_out)
  else
    let st := PikToPixels.start env compressed io aux_out
    match st.1 with
    | Status.failure reason =>
      some { status := Status.failure reason, image := io, aux_out := aux_out,
             trace := [DecodeCall.ReadFileHeader (Status.failure reason)] }
    | Status.ok =>
      match decodePasses env dparams compressed st.2.1 fuel st.2.2 with
      | none => none
      | some (Status.failure reason, s) =>
        some { status := Status.failure reason, image := s.heap.io,
               aux_out := s.heap.aux_out, trace := s.trace }
      | some (Status.ok, s) =>
        if dparams.check_decompressed_size &&
            decide (env.Position s.heap.reader ≠ compressed.length) then
          some { status := Status.failure kSizeMismatch, image := s.heap.io,
                 aux_out := s.heap.aux_out, trace := s.trace }
        else
          some { status := Status.ok,
                 image := { s.heap.io with enc_size := compressed.length },
                 aux_out := s.heap.aux_out, trace := s.trace }

/-! ## Views of a trace -/

/-- An encoded pass as the specification describes it: the parameters it was encoded
with, its `is_last` flag, the image it carries and the scope configured on the
accumulator when it was encoded. -/
structure Pass where
  cparams : CompressParams
  is_last : Bool
  image : CodecInOut
  scope : ProgressiveMode
  deriving DecidableEq, Repr

/-- The pass a call encodes, if the call is `AddPass` or `PixelsToPikPass`. -/
def Call.pass : Call → Option Pass
  | Call.AddPass p pass_params image transform _ =>
    some { cparams := p, is_last := pass_params.is_last, image := image,
           scope := transform.mode }
  | Call.PixelsToPikPass p pass_params image _ transform _ =>
    some { cparams := p, is_last := pass_params.is_last, image := image,
           scope := transform.mode }
  | _ => none

/-- The passes of a trace, in the order they were encoded. -/
def passes (trace : List Call) : List Pass :=
  trace.filterMap Call.pass

/-- The status a call returned, for the calls that return one. -/
def Call.status : Call → Option Status
  | Call.WriteFileHeader st => some st
  | Call.SetFromFile _ st => some st
  | Call.ProduceSaliencyMap _ st => some st
  | Call.PixelsToPikPass _ _ _ _ _ st => some st
  | Call.AddPass _ _ _ _ st => some st
  | Call.Finalize st => some st
  | _ => none

/-- A call that returned a failure. -/
def Call.failed (c : Call) : Bool :=
  match c.status with
  | some (Status.failure _) => true
  | _ => false

/-- Whether a call of `PikToPixels` decodes a pass. -/
def DecodeCall.isPass : DecodeCall → Bool
  | DecodeCall.PikPassToPixels _ _ _ => true
  | _ => false

/-- The calls a function makes when it is to perform `calls` in order and
returns at the first one that fails. -/
def untilFailure : List Call → List Call
  | [] => []
  | c :: rest => if c.failed then [c] else c :: untilFailure rest

/-- The status of a function that performs `calls` in order, returns the first
failure and returns `ok` when there is none. -/
def firstFailure : List Call → Status
  | [] => Status.ok
  | c :: rest =>
    match c.status with
    | some (Status.failure reason) => Status.failure reason
    | _ => firstFailure rest

/-- Parameters of the LF-only pass of the progressive branch. -/
def lfPassParams (cparams : CompressParams) : CompressParams :=
  { cparams with lossless_mode := false, adaptive_reconstruction := Override.kOff }

/-- Parameters of the salient-HF pass of the progressive branch. -/
def salientPassParams (cparams : CompressParams) : CompressParams :=
  { lfPassParams cparams with gradient := Override.kOff, predict_lf := false,
                              predict_hf := false }

/-- Parameters of the final HF pass of the progressive branch. -/
def finalPassParams (cparams : CompressParams) : CompressParams :=
  { salientPassParams cparams with
    adaptive_reconstruction := cparams.adaptive_reconstruction }

/-- Parameters of the lossless pass of the progressive branch. -/
def losslessPassParams (cparams : CompressParams) : CompressParams :=
  { finalPassParams cparams with lossless_mode := true }

/-- Scope of the final HF pass of the progressive branch. -/
def finalScope (cparams : CompressParams) : ProgressiveMode :=
  if cparams.saliency_extractor_for_progressive_mode ≠ "" then
    ProgressiveMode.kNonSalientHfOnly
  else ProgressiveMode.kHfOnly

/-- The result `r` is that of a function which, after the calls `start`,
performs `calls` in order and returns at the first failure. -/
def EncodeResult.Performs (r : EncodeResult) (start calls : List Call) : Prop :=
  r.trace = start ++ untilFailure calls ∧ r.status = firstFailure calls

/-- The calls of the progressive branch after the encoder is created, in
program order (src/pik.cc, lines 132-165); the accumulators the passes see and
the statuses the calls return are parameters. -/
def progressiveCalls (cparams : CompressParams) (io : CodecInOut)
    (t₁ t₂ t₃ t₄ : SingleImageManager) (st₁ st₂ st₃ st₄ st₅ st₆ : Status) : List Call :=
  [Call.AddPass (lfPassParams cparams) { is_last := false } io t₁ st₁] ++
  (if cparams.saliency_extractor_for_progressive_mode ≠ "" then
    [Call.ProduceSaliencyMap cparams st₂,
     Call.AddPass (salientPassParams cparams) { is_last := false } io t₂ st₃]
   else []) ++
  [Call.AddPass (finalPassParams cparams) { is_last := !cparams.lossless_mode } io t₃ st₄] ++
  (if cparams.lossless_mode then
    [Call.AddPass (losslessPassParams cparams) { is_last := true } io t₄ st₅]
   else []) ++
  [Call.Finalize st₆]

/-- The calls of the lossless-base branch after the encoder is created, in
program order (src/pik.cc, lines 84-95). -/
def losslessBaseCalls (cparams : CompressParams) (io base : CodecInOut)
    (t₁ t₂ : SingleImageManager) (st₀ st₁ st₂ st₃ : Status) : List Call :=
  [Call.SetFromFile cparams.lossless_base st₀,
   Call.AddPass { cparams with adaptive_reconstruction := Override.kOff, lossless_mode := true }
     { is_last := false } base t₁ st₁,
   Call.AddPass { cparams with adaptive_reconstruction := cparams.adaptive_reconstruction,
                               lossless_mode := false }
     { is_last := true } io t₂ st₂,
   Call.Finalize st₃]

/-- The calls of the single-pass branch after `CanEncode`, in program order
(src/pik.cc, lines 105-111). -/
def singlePassCalls (cparams : CompressParams) (io : CodecInOut) (pos : Nat)
    (st₁ st₂ : Status) : List Call :=
  [Call.WriteFileHeader st₁,
   Call.PixelsToPikPass cparams { is_last := true } io pos SingleImageManager.create st₂]

/-! ## Statements about the decoder -/

/-- The objects after `n` passes decoded one after the other starting from
`h`, whatever the accumulator reports; `none` when one of them fails. -/
def passesDecoded (env : Env) (dparams : DecompressParams) (compressed : PaddedBytes)
    (container : FileHeader) : Nat → DecoderHeap → Option DecoderHeap
  | 0, h => some h
  | n + 1, h =>
    match env.PikPassToPixels dparams compressed container h with
    | (Status.ok, h') => passesDecoded env dparams compressed container n h'
    | (Status.failure _, _) => none

/-- The calls of `n` passes decoded one after the other starting from `h`:
each pass is given the objects the previous one left. -/
def passCalls (env : Env) (dparams : DecompressParams) (compressed : PaddedBytes)
    (container : FileHeader) : Nat → DecoderHeap → List DecodeCall
  | 0, _ => []
  | n + 1, h =>
    DecodeCall.PikPassToPixels h (env.PikPassToPixels dparams compressed container h).1
      (env.PikPassToPixels dparams compressed container h).2 ::
    passCalls env dparams compressed container n
      (env.PikPassToPixels dparams compressed container h).2

/-- The number of passes decoded in a trace. -/
def passCount (trace : List DecodeCall) : Nat :=
  (trace.filter DecodeCall.isPass).length

/-- The reader `r` moved over the bytes `data`. -/
def BitReader.over (r : BitReader) (data : PaddedBytes) : BitReader :=
  { r with data := data }

/-- The decoder objects with the reader moved over the bytes `data`. -/
def DecoderHeap.over (h : DecoderHeap) (data : PaddedBytes) : DecoderHeap :=
  { h with reader := h.reader.over data }

/-- What `PikToPixels` returns once the pass loop has returned. -/
def PikToPixels.finish (env : Env) (dparams : DecompressParams) (compressed : PaddedBytes)
    (x : Status × DecodeState) : DecodeResult :=
  match x with
  | (Status.failure reason, s) =>
    { status := Status.failure reason, image := s.heap.io, aux_out := s.heap.aux_out,
      trace := s.trace }
  | (Status.ok, s) =>
    if dparams.check_decompressed_size &&
        decide (env.Position s.heap.reader ≠ compressed.length) then
      { status := Status.failure kSizeMismatch, image := s.heap.io,
        aux_out := s.heap.aux_out, trace := s.trace }
    else
      { status := Status.ok, image := { s.heap.io with enc_size := compressed.length },
        aux_out := s.heap.aux_out, trace := s.trace }

/-- Bit `i` of a buffer: bit `i % 8` of byte `i / 8`, least significant bit
first; past the end of the buffer the bits are 0. -/
def bitAt (data : PaddedBytes) (i : Nat) : Bool :=
  (data.getD (i / 8) 0).testBit (i % 8)

/-- Modelled from the spec: how `ReadFileHeader` and `PikPassToPixels` (their
code is not among the sources) read the buffer.  "Bitstream layout:
[FileHeader][optional preview payload][pass₁][pass₂]…[pass_n], where header
length is computed in advance, preview length is explicit and skippable, and
each pass is self-delimiting".  The position is a function of the cursor; the
reader stays over the buffer it was created on and a pass moves it forward; a
header that parses gives the same outcome over any buffer of the same length
with the same bits between the cursor and the end of the header; and a pass
gives the same outcome over any buffer of the same length with the same bits
from the cursor on. -/
structure ReadsFromCursor (env : Env) : Prop where
  position_cursor : ∀ (r : BitReader) (data : PaddedBytes),
    env.Position (r.over data) = env.Position r
  header_forward : ∀ (r r' : BitReader) (c : FileHeader),
    env.ReadFileHeader r = (Status.ok, r', c) → r'.data = r.data
  header_self_delimiting : ∀ (r r' : BitReader) (c : FileHeader) (data : PaddedBytes),
    data.length = r.data.length →
    env.ReadFileHeader r = (Status.ok, r', c) →
    (∀ i, r.bits ≤ i → i < r'.bits → bitAt data i = bitAt r.data i) →
    env.ReadFileHeader (r.over data) = (Status.ok, r'.over data, c)
  pass_forward : ∀ (dparams : DecompressParams) (container : FileHeader) (h h' : DecoderHeap),
    env.PikPassToPixels dparams h.reader.data container h = (Status.ok, h') →
    h.reader.bits ≤ h'.reader.bits ∧ h'.reader.data = h.reader.data
  pass_from_cursor : ∀ (dparams : DecompressParams) (container : FileHeader)
    (h h' : DecoderHeap) (st : Status) (data : PaddedBytes),
    data.length = h.reader.data.length →
    env.PikPassToPixels dparams h.reader.data container h = (st, h') →
    (∀ i, h.reader.bits ≤ i → bitAt data i = bitAt h.reader.data i) →
    env.PikPassToPixels dparams data container (h.over data) = (st, h'.over data)

/-! ## Polynomial evaluation (src/butteraugli/butteraugli.h)

`double` values are elements of a commutative ring: the arithmetic is exact. -/

/-- The template `ClenshawRecursion<INDEX>(x, coefficients, &b1, &b2)` with its
base case `ClenshawRecursion<0>` (src/butteraugli/butteraugli.h, lines
291-312); the pair is `(*b1, *b2)`, and `coefficients[i]` is
`coefficients.getD i 0`. -/
def ClenshawRecursion {R : Type} [CommRing R] (x : R) (coefficients : List R) :
    Nat → R × R → R × R
  | 0, (b1, b2) =>
    let x_b1 := x * b1
    -- The final iteration differs - no 2 * x_b1 here.
    (x_b1 - b2 + coefficients.getD 0 0, b2)
  | INDEX + 1, (b1, b2) =>
    let x_b1 := x * b1
    let t := (x_b1 + x_b1) - b2 + coefficients.getD (INDEX + 1) 0
    ClenshawRecursion x coefficients INDEX (t, b1)

/-- The function `RationalPolynomial::EvaluatePolynomial<N>(x, coefficients)`
(src/butteraugli/butteraugli.h, lines 318-325); `N` is the size of the array. -/
def RationalPolynomial.EvaluatePolynomial {R : Type} [CommRing R] (x : R)
    (coefficients : List R) : R :=
  let N := coefficients.length
  let b1 : R := 0
  let b2 : R := 0
  (ClenshawRecursion x coefficients (N - 1) (b1, b2)).1

/-- The Chebyshev polynomials of the first kind, evaluated at `x`:
`T_0 = 1`, `T_1 = x`, `T_{k+1} = 2x*T_k - T_{k-1}`. -/
def chebyshevT {R : Type} [CommRing R] (x : R) : Nat → R
  | 0 => 1
  | 1 => x
  | k + 2 => 2 * x * chebyshevT x (k + 1) - chebyshevT x k

/-! ## Coefficient tiers (src/ac_predictions.h, lines 18-21) -/

/-- The coefficients `(x, y)` of a block of size `N`. -/
def blockCoefficients (N : Nat) : Finset (Nat × Nat) :=
  Finset.range N ×ˢ Finset.range N

/-- "Given a block of size N, the top (N/8)*(N/8) block of coefficients are the
lowest-frequency coefficients." -/
def isLlf (N : Nat) (p : Nat × Nat) : Bool :=
  decide (p.1 < N / 8) && decide (p.2 < N / 8)

/-- "Other coefficients in the top (N/4)*(N/4) block are the low frequency
coefficients". -/
def isLf (N : Nat) (p : Nat × Nat) : Bool :=
  (decide (p.1 < N / 4) && decide (p.2 < N / 4)) && !isLlf N p

/-- "and the rest of the block are high frequency coefficients." -/
def isHf (N : Nat) (p : Nat × Nat) : Bool :=
  !isLlf N p && !isLf N p

/-- The lowest-frequency coefficients of a block of size `N`. -/
def llfCoefficients (N : Nat) : Finset (Nat × Nat) :=
  (blockCoefficients N).filter fun p => isLlf N p = true

/-- The low-frequency coefficients of a block of size `N`. -/
def lfCoefficients (N : Nat) : Finset (Nat × Nat) :=
  (blockCoefficients N).filter fun p => isLf N p = true

/-- The high-frequency coefficients of a block of size `N`. -/
def hfCoefficients (N : Nat) : Finset (Nat × Nat) :=
  (blockCoefficients N).filter fun p => isHf N p = true

/-! ## A small concrete codec

An instance of `Env` on which the entry points can be run: the header is two
bytes, every pass is one byte (its value is the `is_last` flag), and the
reader works on whole bytes and refuses to read past the end. -/

/-- Modelled from the spec: a single-pass decoder `PikPassToPixels` (its code is
not among the sources).  "Pass decode → residual add → coefficient
reconstruction → accumulate into output image", with "one `is_last` bit
consumed by the accumulator".  Here a pass is one byte: it is appended to the
pixels of the output image, and the pass is the last one when the byte is 1. -/
def toyPikPassToPixels (_dparams : DecompressParams) (_compressed : PaddedBytes)
    (_container : FileHeader) (h : DecoderHeap) : Status × DecoderHeap :=
  match h.reader.data.get? (h.reader.bits / 8) with
  | none => (Status.failure "Unexpected end of data.", h)
  | some b =>
    (Status.ok,
      { h with
        reader := { h.reader with bits := (h.reader.bits / 8 + 1) * 8 }
        io := { h.io with pixels := h.io.pixels ++ [b] }
        transform := { h.transform with is_last_pass := decide (b = 1) } })

/-- Read the header: two bytes, the second one is `preview.size_bits`. -/
def toyReadFileHeader (r : BitReader) : Status × BitReader × FileHeader :=
  match r.data.get? (r.bits / 8), r.data.get? (r.bits / 8 + 1) with
  | some a, some b =>
    (Status.ok, { r with bits := (r.bits / 8 + 2) * 8 },
      { preview_size_bits := b, fields := [a] })
  | _, _ => (Status.failure "Truncated header.", r, { preview_size_bits := 0, fields := [] })

/-- Write one pass: append its `is_last` flag. -/
def toyAddPass (_p : CompressParams) (pass_params : PassParams) (_image : CodecInOut)
    (h : EncoderHeap) : Status × EncoderHeap :=
  (Status.ok, { h with compressed := h.compressed ++ [if pass_params.is_last then 1 else 0] })

/-- The concrete codec. -/
def toyEnv : Env where
  kMinButteraugliForAdaptiveReconstruction := 1
  kBitsPerByte := 8
  DivCeil := fun a b => (a + b - 1) / b
  ApplyOverride := fun o d =>
    match o with
    | Override.kOn => true
    | Override.kOff => false
    | Override.kDefault => d
  MakeFileHeader := fun _ image => { preview_size_bits := 0, fields := [image.xsize] }
  CanEncode := fun _ => (true, 0, 16)
  resize := fun b n => b.take n ++ List.replicate (n - b.length) 0
  WriteFileHeader := fun c _ pos _ => (Status.ok, pos + 16, c.fields ++ [c.preview_size_bits])
  SetFromFile := fun image _ =>
    (Status.ok, { image with xsize := 1, ysize := 1, has_original_bits_per_sample := true,
                             pixels := [7] })
  PixelsToPikPass := fun _ pass_params _ compressed _ aux_out transform =>
    (Status.ok, compressed ++ [if pass_params.is_last then 1 else 0], aux_out, transform)
  NewEncoder := fun c _ transform aux_out =>
    { encoder := [], compressed := c.fields ++ [c.preview_size_bits], transform := transform,
      aux_out := aux_out }
  AddPass := toyAddPass
  Finalize := fun h => (Status.ok, h)
  ProduceSaliencyMap := fun _ compressed _ => (Status.ok, compressed, some [1])
  ReadFileHeader := toyReadFileHeader
  Position := fun r => (r.bits + 7) / 8
  PikPassToPixels := toyPikPassToPixels

/-- A 64x64 image with bit-depth metadata. -/
def toyImage : CodecInOut :=
  { context := 0, xsize := 64, ysize := 64, has_original_bits_per_sample := true,
    enc_size := 0, pixels := [5] }

/-- Parameters: one pass, nothing optional. -/
def toyParams : CompressParams :=
  { butteraugli_distance := 1, adaptive_reconstruction := Override.kDefault,
    gradient := Override.kDefault, predict_lf := true, predict_hf := true,
    lossless_mode := false, progressive_mode := false, lossless_base := "",
    saliency_extractor_for_progressive_mode := "", other := [] }

/-- Decoder parameters with the size check enabled. -/
def toyDecompressParams : DecompressParams :=
  { check_decompressed_size := true, other := [] }

/-- Parameters: progressive mode with a saliency extractor and a lossless layer. -/
def toyProgressiveParams : CompressParams :=
  { toyParams with progressive_mode := true, lossless_mode := true,
                   saliency_extractor_for_progressive_mode := "saliency" }

/-- Parameters: progressive mode, nothing optional. -/
def toyPlainProgressiveParams : CompressParams :=
  { toyParams with progressive_mode := true }

/-- The concrete codec with an encoder that cannot write a last pass. -/
def toyFailingEnv : Env :=
  { toyEnv with
    AddPass := fun p pass_params image h =>
      if pass_params.is_last then (Status.failure "Cannot write.", h)
      else toyAddPass p pass_params image h }

/-- The run of the progressive branch on the concrete codec. -/
def toyProgressiveRun : EncodeResult :=
  PixelsToPik.progressive toyEnv toyProgressiveParams toyImage
    (toyEnv.MakeFileHeader toyProgressiveParams toyImage) [] [] [Call.MakeFileHeader]

/-- The run of the progressive branch, nothing optional, on the concrete codec. -/
def toyPlainProgressiveRun : EncodeResult :=
  PixelsToPik.progressive toyEnv toyPlainProgressiveParams toyImage
    (toyEnv.MakeFileHeader toyPlainProgressiveParams toyImage) [] [] [Call.MakeFileHeader]

/-- The run of the progressive branch on the codec that cannot write a last pass. -/
def toyFailingRun : EncodeResult :=
  PixelsToPik.progressive toyFailingEnv toyProgressiveParams toyImage
    (toyFailingEnv.MakeFileHeader toyProgressiveParams toyImage) [] [] [Call.MakeFileHeader]

/-- A stream for the concrete codec: header (64, no preview), three passes,
the third one last. -/
def toyStream : PaddedBytes := [64, 0, 0, 0, 1]

/-- A stream for the concrete codec with two bytes after the last pass. -/
def toyLongStream : PaddedBytes := [64, 0, 0, 1, 0, 1]

/-- The image `PikToPixels` is given to fill. -/
def toyOutput : CodecInOut := CodecInOut.create 0

/-- The header of `toyStream`. -/
def toyContainer : FileHeader := { preview_size_bits := 0, fields := [64] }

/-- The objects the pass loop starts from on `toyStream`. -/
def toyStart : DecodeState :=
  { heap := { reader := { data := toyStream, bits := 16 }, io := toyOutput, aux_out := [],
              transform := SingleImageManager.create },
    trace := [DecodeCall.ReadFileHeader Status.ok] }

/-- The objects the pass loop leaves on `toyStream`. -/
def toyEnd : DecoderHeap :=
  { reader := { data := toyStream, bits := 40 },
    io := { toyOutput with pixels := [0, 0, 1] }, aux_out := [],
    transform := { SingleImageManager.create with is_last_pass := true } }

/-- What the pass loop returns on `toyStream`. -/
def toyLoopEnd : DecodeState :=
  { heap := toyEnd,
    trace := toyStart.trace ++
      passCalls toyEnv toyDecompressParams toyStream toyContainer 3 toyStart.heap }

/-- What `PikToPixels` returns on `toyStream`. -/
def toyDecoded : DecodeResult :=
  { status := Status.ok, image := { toyEnd.io with enc_size := 5 }, aux_out := [],
    trace := toyLoopEnd.trace }

/-- The objects the pass loop starts from on `toyLongStream`. -/
def toyLongStart : DecodeState :=
  { heap := { reader := { data := toyLongStream, bits := 16 }, io := toyOutput, aux_out := [],
              transform := SingleImageManager.create },
    trace := [DecodeCall.ReadFileHeader Status.ok] }

/-- What the pass loop returns on `toyLongStream`: it stops after two passes,
four bytes into a buffer of six. -/
def toyLongLoopEnd : DecodeState :=
  { heap := { reader := { data := toyLongStream, bits := 32 },
              io := { toyOutput with pixels := [0, 1] }, aux_out := [],
              transform := { SingleImageManager.create with is_last_pass := true } },
    trace := toyLongStart.trace ++
      passCalls toyEnv toyDecompressParams toyLongStream toyContainer 2 toyLongStart.heap }

/-! ## A concrete codec that reads bits

The header is four bits: a signature bit, which is 1, and three bits of
`preview.size_bits`.  A pass is two bits: the `is_last` flag and one pixel. -/

/-- The number written in the `n` bits from `start` on, least significant bit
first. -/
def readBits (data : PaddedBytes) (start n : Nat) : Nat :=
  ((List.range n).map fun j => if bitAt data (start + j) then 2 ^ j else 0).sum

/-- Read the four-bit header. -/
def toyBitReadFileHeader (r : BitReader) : Status × BitReader × FileHeader :=
  if r.bits + 4 ≤ 8 * r.data.length ∧ bitAt r.data r.bits = true then
    (Status.ok, { r with bits := r.bits + 4 },
      { preview_size_bits := readBits r.data (r.bits + 1) 3, fields := [] })
  else (Status.failure "Bad header.", r, { preview_size_bits := 0, fields := [] })

/-- Read one two-bit pass. -/
def toyBitPikPassToPixels (_dparams : DecompressParams) (_compressed : PaddedBytes)
    (_container : FileHeader) (h : DecoderHeap) : Status × DecoderHeap :=
  if h.reader.bits + 2 ≤ 8 * h.reader.data.length then
    (Status.ok,
      { h with
        reader := { h.reader with bits := h.reader.bits + 2 }
        io := { h.io with
                pixels := h.io.pixels ++
                  [if bitAt h.reader.data (h.reader.bits + 1) then 1 else 0] }
        transform := { h.transform with is_last_pass := bitAt h.reader.data h.reader.bits } })
  else (Status.failure "Unexpected end of data.", h)

/-- The concrete codec that reads bits. -/
def toyBitEnv : Env :=
  { toyEnv with
    ReadFileHeader := toyBitReadFileHeader
    PikPassToPixels := toyBitPikPassToPixels }

/-- A stream for the codec that reads bits: header (signature, three preview
bits announced), preview bits 000, one last pass with pixel 1. -/
def toyBitStream : PaddedBytes := [0x87, 1]

/-- The same stream with preview bits 111. -/
def toyBitStreamOther : PaddedBytes := [0xF7, 1]

/-- The reader after the header of `toyBitStream`. -/
def toyBitHeaderEnd : BitReader := { data := toyBitStream, bits := 4 }

/-- The header of `toyBitStream`. -/
def toyBitContainer : FileHeader := { preview_size_bits := 3, fields := [] }

/-! ## A concrete codec that reads the padding

The codec of `toyEnv` with a pass decoder that does not look at the length of
the buffer: past the end it reads the padding. -/

/-- Read the one-byte header. -/
def toyByteReadFileHeader (r : BitReader) : Status × BitReader × FileHeader :=
  if r.bits + 8 ≤ 8 * r.data.length then
    (Status.ok, { r with bits := r.bits + 8 },
      { preview_size_bits := readBits r.data r.bits 8, fields := [] })
  else (Status.failure "Bad header.", r, { preview_size_bits := 0, fields := [] })

/-- The concrete codec with a one-byte header. -/
def toyByteEnv : Env :=
  { toyBitEnv with ReadFileHeader := toyByteReadFileHeader }

/-- Decoder parameters with the size check disabled. -/
def toyUncheckedParams : DecompressParams :=
  { check_decompressed_size := false, other := [] }

/-- A stream for the codec with a one-byte header: header (ten preview bits
announced), ten preview bits, three passes with pixel 0, and bytes after the
last pass.  It is `kBrunsliMagic` with the first preview bit set. -/
def toyByteStream : PaddedBytes := [0x0A, 0x05, 66, 0xD2, 0xD5, 78, 0x12]

/-- The reader after the header of `toyByteStream`. -/
def toyByteHeaderEnd : BitReader := { data := toyByteStream, bits := 8 }

/-- The header of `toyByteStream`. -/
def toyByteContainer : FileHeader := { preview_size_bits := 10, fields := [] }
/-! # Lemmas -/

/-- Rule for `PIK_RETURN_IF_ERROR(encoder.AddPass(...))`: either the call fails
and the function returns, or it succeeds and the rest runs; in both cases the
call is the next entry of the trace. -/
theorem PIK_RETURN_IF_ERROR_addPass {env : Env} {p : CompressParams}
    {pass_params : PassParams} {image : CodecInOut} {s : EncodeState}
    {rest : EncodeState → EncodeResult} {r : EncodeResult}
    (hr : PIK_RETURN_IF_ERROR (addPass env p pass_params image s) rest = r) :
    (∃ (reason : String) (s' : EncodeState),
      s'.trace = s.trace ++
        [Call.AddPass p pass_params image s.heap.transform (Status.failure reason)] ∧
      r = s'.finish (Status.failure reason)) ∨
    (∃ s' : EncodeState,
      s'.trace = s.trace ++ [Call.AddPass p pass_params image s.heap.transform Status.ok] ∧
      r = rest s') := by
  subst hr
  unfold PIK_RETURN_IF_ERROR
  cases h : (addPass env p pass_params image s).1 with
  | ok =>
    refine Or.inr ⟨(addPass env p pass_params image s).2, ?_, rfl⟩
    have : (env.AddPass p pass_params image s.heap).1 = Status.ok := h
    simp [addPass, this]
  | failure reason =>
    refine Or.inl ⟨reason, (addPass env p pass_params image s).2, ?_, rfl⟩
    have : (env.AddPass p pass_params image s.heap).1 = Status.failure reason := h
    simp [addPass, this]

/-- Rule for `PIK_RETURN_IF_ERROR(encoder.Finalize())`. -/
theorem PIK_RETURN_IF_ERROR_finalize {env : Env} {s : EncodeState}
    {rest : EncodeState → EncodeResult} {r : EncodeResult}
    (hr : PIK_RETURN_IF_ERROR (finalize env s) rest = r) :
    (∃ (reason : String) (s' : EncodeState),
      s'.trace = s.trace ++ [Call.Finalize (Status.failure reason)] ∧
      r = s'.finish (Status.failure reason)) ∨
    (∃ s' : EncodeState, s'.trace = s.trace ++ [Call.Finalize Status.ok] ∧ r = rest s') := by
  subst hr
  unfold PIK_RETURN_IF_ERROR
  cases h : (finalize env s).1 with
  | ok =>
    refine Or.inr ⟨(finalize env s).2, ?_, rfl⟩
    have : (env.Finalize s.heap).1 = Status.ok := h
    simp [finalize, this]
  | failure reason =>
    refine Or.inl ⟨reason, (finalize env s).2, ?_, rfl⟩
    have : (env.Finalize s.heap).1 = Status.failure reason := h
    simp [finalize, this]

/-- Calls that succeeded are kept by `untilFailure`. -/
theorem untilFailure_cons_of_not_failed (c : Call) (rest : List Call)
    (h : c.failed = false) : untilFailure (c :: rest) = c :: untilFailure rest := by
  simp [untilFailure, h]

/-- Calls that succeeded are skipped by `firstFailure`. -/
theorem firstFailure_cons_of_not_failed (c : Call) (rest : List Call)
    (h : c.failed = false) : firstFailure (c :: rest) = firstFailure rest := by
  unfold Call.failed at h
  cases hs : c.status with
  | none => simp [firstFailure, hs]
  | some st =>
    cases st with
    | ok => simp [firstFailure, hs]
    | failure reason => simp [hs] at h

/-- Performing calls after some that succeeded. -/
theorem EncodeResult.Performs.append_ok {r : EncodeResult} {start ok calls : List Call}
    (h : r.Performs (start ++ ok) calls) (hok : ∀ c ∈ ok, c.failed = false) :
    r.Performs start (ok ++ calls) := by
  induction ok generalizing start with
  | nil => simpa using h
  | cons c ok ih =>
    have hc : c.failed = false := hok c (List.mem_cons_self _ _)
    have h' : r.Performs (start ++ [c]) (ok ++ calls) :=
      ih (by simpa using h) (fun d hd => hok d (List.mem_cons_of_mem _ hd))
    unfold EncodeResult.Performs at h' ⊢
    rw [List.cons_append, untilFailure_cons_of_not_failed c _ hc,
      firstFailure_cons_of_not_failed c _ hc]
    simpa using h'

/-- The tail of the progressive branch performs, in order and up to the first
failure: the final HF pass, the lossless pass when requested, `Finalize`. -/
theorem progressiveFinal_calls (env : Env) (cparams : CompressParams) (io : CodecInOut)
    (lossless : Bool) (p : CompressParams) (mode : ProgressiveMode) (s : EncodeState) :
    ∃ (t₄ : SingleImageManager) (st₁ st₂ st₃ : Status),
      (PixelsToPik.progressiveFinal env cparams io lossless p { is_last := false }
          mode s).Performs s.trace
          ([Call.AddPass { p with adaptive_reconstruction := cparams.adaptive_reconstruction }
              { is_last := !lossless } io (s.heap.transform.SetProgressiveMode mode) st₁] ++
           (if lossless then
              [Call.AddPass { p with adaptive_reconstruction := cparams.adaptive_reconstruction,
                                     lossless_mode := true }
                 { is_last := true } io t₄ st₂] else []) ++
           [Call.Finalize st₃]) := by
  unfold PixelsToPik.progressiveFinal EncodeResult.Performs
  cases lossless
  · simp only [Bool.not_false, if_true, Bool.false_eq_true, if_false]
    generalize hr : PIK_RETURN_IF_ERROR _ _ = r
    rcases PIK_RETURN_IF_ERROR_addPass hr with ⟨reason, s', h', rfl⟩ | ⟨s₁, h₁, rfl⟩
    · exact ⟨s.heap.transform, Status.failure reason, Status.ok, Status.ok, by
        simp [EncodeState.finish, h', untilFailure, firstFailure, Call.failed, Call.status,
          EncodeState.onTransform]⟩
    · generalize hr₂ : PIK_RETURN_IF_ERROR _ _ = r₂
      rcases PIK_RETURN_IF_ERROR_finalize hr₂ with ⟨reason, s', h', rfl⟩ | ⟨s', h', rfl⟩
      · exact ⟨s.heap.transform, Status.ok, Status.ok, Status.failure reason, by
          simp [EncodeState.finish, h', h₁, untilFailure, firstFailure, Call.failed, Call.status,
            EncodeState.onTransform]⟩
      · exact ⟨s.heap.transform, Status.ok, Status.ok, Status.ok, by
          simp [EncodeState.finish, h', h₁, untilFailure, firstFailure, Call.failed, Call.status,
            EncodeState.onTransform]⟩
  · simp only [Bool.not_true, if_true, Bool.false_eq_true, if_false]
    generalize hr : PIK_RETURN_IF_ERROR _ _ = r
    rcases PIK_RETURN_IF_ERROR_addPass hr with ⟨reason, s', h', rfl⟩ | ⟨s₁, h₁, rfl⟩
    · exact ⟨s.heap.transform, Status.failure reason, Status.ok, Status.ok, by
        simp [EncodeState.finish, h', untilFailure, firstFailure, Call.failed, Call.status,
          EncodeState.onTransform]⟩
    · generalize hr₂ : PIK_RETURN_IF_ERROR _ _ = r₂
      rcases PIK_RETURN_IF_ERROR_addPass hr₂ with ⟨reason, s', h', rfl⟩ | ⟨s₂, h₂, rfl⟩
      · exact ⟨s₁.heap.transform, Status.ok, Status.failure reason, Status.ok, by
          simp [EncodeState.finish, h', h₁, untilFailure, firstFailure, Call.failed, Call.status,
            EncodeState.onTransform]⟩
      · generalize hr₃ : PIK_RETURN_IF_ERROR _ _ = r₃
        rcases PIK_RETURN_IF_ERROR_finalize hr₃ with ⟨reason, s', h', rfl⟩ | ⟨s', h', rfl⟩
        · exact ⟨s₁.heap.transform, Status.ok, Status.ok, Status.failure reason, by
            simp [EncodeState.finish, h', h₁, h₂, untilFailure, firstFailure, Call.failed,
              Call.status, EncodeState.onTransform]⟩
        · exact ⟨s₁.heap.transform, Status.ok, Status.ok, Status.ok, by
            simp [EncodeState.finish, h', h₁, h₂, untilFailure, firstFailure, Call.failed,
              Call.status, EncodeState.onTransform]⟩


/-- Switching adaptive reconstruction on makes no call. -/
theorem applyAdaptiveReconstruction_trace (env : Env) (cparams : CompressParams)
    (s : EncodeState) : (applyAdaptiveReconstruction env cparams s).trace = s.trace := by
  unfold applyAdaptiveReconstruction
  split <;> rfl

/-- For a valid input `PixelsToPik` builds the header and enters one of its
three branches. -/
theorem PixelsToPik_of_valid (env : Env) (cparams : CompressParams)
    (io : CodecInOut) (compressed : PaddedBytes) (aux_out : PikInfo)
    (hx : io.xsize ≠ 0) (hy : io.ysize ≠ 0) (hb : io.HasOriginalBitsPerSample = true) :
    PixelsToPik env cparams io compressed aux_out =
      if cparams.lossless_base ≠ "" then
        some (PixelsToPik.losslessBase env cparams io (env.MakeFileHeader cparams io)
          compressed aux_out [Call.MakeFileHeader])
      else if cparams.progressive_mode = false then
        PixelsToPik.singlePass env cparams io (env.MakeFileHeader cparams io)
          compressed aux_out [Call.MakeFileHeader]
      else
        some (PixelsToPik.progressive env cparams io (env.MakeFileHeader cparams io)
          compressed aux_out [Call.MakeFileHeader]) := by
  have hz : ¬ (io.xsize = 0 ∨ io.ysize = 0) := by
    rintro (h | h)
    · exact hx h
    · exact hy h
  unfold PixelsToPik
  rw [if_neg hz]
  simp only [hb, Bool.not_true, Bool.false_eq_true, if_false]
  cases cparams.progressive_mode <;> simp
/-- The progressive branch creates the encoder and then performs
`progressiveCalls` up to the first failure; the first three passes see the
scopes LF-only, salient-HF-only and `finalScope`. -/
theorem progressive_calls (env : Env) (cparams : CompressParams) (io : CodecInOut)
    (container : FileHeader) (compressed : PaddedBytes) (aux_out : PikInfo)
    (trace : List Call) :
    ∃ (t₁ t₂ t₃ t₄ : SingleImageManager) (st₁ st₂ st₃ st₄ st₅ st₆ : Status),
      t₁.mode = ProgressiveMode.kLfOnly ∧ t₂.mode = ProgressiveMode.kSalientHfOnly ∧
      t₃.mode = finalScope cparams ∧
      (PixelsToPik.progressive env cparams io container compressed aux_out trace).Performs
        (trace ++ [Call.NewEncoder])
        (progressiveCalls cparams io t₁ t₂ t₃ t₄ st₁ st₂ st₃ st₄ st₅ st₆) := by
  unfold PixelsToPik.progressive
  simp only []
  generalize hs₀ : (applyAdaptiveReconstruction env cparams
    (newEncoder env container compressed aux_out trace)).onTransform
      (fun t => t.SetProgressiveMode ProgressiveMode.kLfOnly) = s₀
  have ht₀ : s₀.trace = trace ++ [Call.NewEncoder] := by
    subst hs₀
    simp [EncodeState.onTransform, applyAdaptiveReconstruction_trace, newEncoder]
  have hm₀ : s₀.heap.transform.mode = ProgressiveMode.kLfOnly := by
    subst hs₀
    simp [EncodeState.onTransform, SingleImageManager.SetProgressiveMode]
  generalize hr : PIK_RETURN_IF_ERROR _ _ = r
  rcases PIK_RETURN_IF_ERROR_addPass hr with ⟨reason, s', h', rfl⟩ | ⟨s₁, h₁, rfl⟩
  · refine ⟨s₀.heap.transform,
      s₀.heap.transform.SetProgressiveMode ProgressiveMode.kSalientHfOnly,
      s₀.heap.transform.SetProgressiveMode (finalScope cparams), s₀.heap.transform,
      Status.failure reason, Status.ok, Status.ok, Status.ok, Status.ok, Status.ok,
      hm₀, rfl, rfl, ?_⟩
    simp [EncodeResult.Performs, progressiveCalls, EncodeState.finish, h', ht₀, untilFailure,
      firstFailure, Call.failed, Call.status, lfPassParams]
  · by_cases hsal : cparams.saliency_extractor_for_progressive_mode = ""
    · rw [if_neg (by simpa using hsal)]
      obtain ⟨t₄, a, b, c, hf⟩ := progressiveFinal_calls env cparams io cparams.lossless_mode
        { lfPassParams cparams with gradient := Override.kOff, predict_lf := false,
                                    predict_hf := false }
        ProgressiveMode.kHfOnly s₁
      refine ⟨s₀.heap.transform, s₀.heap.transform.SetProgressiveMode ProgressiveMode.kSalientHfOnly,
        s₁.heap.transform.SetProgressiveMode ProgressiveMode.kHfOnly, t₄,
        Status.ok, Status.ok, Status.ok, a, b, c, hm₀, rfl, ?_, ?_⟩
      · simp [finalScope, hsal, SingleImageManager.SetProgressiveMode]
      · rw [h₁, ht₀] at hf
        have := hf.append_ok (by simp [Call.failed, Call.status])
        simpa [progressiveCalls, hsal, lfPassParams, finalPassParams, salientPassParams,
          losslessPassParams] using this
    · rw [if_pos (by simpa using hsal)]
      generalize hs₂ : EncodeState.mk _ (s₁.trace ++ _) = s₂
      have ht₂ : s₂.trace = s₁.trace ++ [Call.ProduceSaliencyMap cparams
            (env.ProduceSaliencyMap cparams s₁.heap.compressed io).1] := by
        subst hs₂
        rfl
      split
      · rename_i reason hm
        refine ⟨s₀.heap.transform,
          s₀.heap.transform.SetProgressiveMode ProgressiveMode.kSalientHfOnly,
          s₀.heap.transform.SetProgressiveMode (finalScope cparams), s₀.heap.transform,
          Status.ok, Status.failure reason, Status.ok, Status.ok, Status.ok, Status.ok,
          hm₀, rfl, rfl, ?_⟩
        simp [EncodeResult.Performs, progressiveCalls, EncodeState.finish, ht₂, h₁, ht₀, hm,
          hsal, untilFailure, firstFailure, Call.failed, Call.status, lfPassParams]
      · rename_i hm
        rw [hm] at ht₂
        generalize hs₃ : (s₂.onTransform fun t =>
            t.SetProgressiveMode ProgressiveMode.kSalientHfOnly).onTransform
            (fun t => t.SetSaliencyMap (env.ProduceSaliencyMap cparams s₁.heap.compressed io).2.2)
            = s₃
        have ht₃ : s₃.trace = s₂.trace := by
          subst hs₃
          rfl
        have hm₃ : s₃.heap.transform.mode = ProgressiveMode.kSalientHfOnly := by
          subst hs₃
          rfl
        generalize hr₂ : PIK_RETURN_IF_ERROR _ _ = r₂
        rcases PIK_RETURN_IF_ERROR_addPass hr₂ with ⟨reason, s', h', rfl⟩ | ⟨s₄, h₄, rfl⟩
        · refine ⟨s₀.heap.transform, s₃.heap.transform,
            s₀.heap.transform.SetProgressiveMode (finalScope cparams), s₀.heap.transform,
            Status.ok, Status.ok, Status.failure reason, Status.ok, Status.ok, Status.ok,
            hm₀, hm₃, rfl, ?_⟩
          simp [EncodeResult.Performs, progressiveCalls, EncodeState.finish, h', ht₃, ht₂, h₁,
            ht₀, hsal, untilFailure, firstFailure, Call.failed, Call.status, lfPassParams,
            salientPassParams]
        · obtain ⟨t₄, a, b, c, hf⟩ := progressiveFinal_calls env cparams io
            cparams.lossless_mode
            { lfPassParams cparams with gradient := Override.kOff, predict_lf := false,
                                        predict_hf := false }
            ProgressiveMode.kNonSalientHfOnly s₄
          refine ⟨s₀.heap.transform, s₃.heap.transform,
            s₄.heap.transform.SetProgressiveMode ProgressiveMode.kNonSalientHfOnly, t₄,
            Status.ok, Status.ok, Status.ok, a, b, c, hm₀, hm₃, ?_, ?_⟩
          · simp [finalScope, hsal, SingleImageManager.SetProgressiveMode]
          · rw [h₄, ht₃, ht₂, h₁, ht₀] at hf
            have := hf.append_ok (by simp [Call.failed, Call.status])
            have := this.append_ok (by simp [Call.failed, Call.status])
            have := this.append_ok (by simp [Call.failed, Call.status])
            simpa [progressiveCalls, hsal, lfPassParams, finalPassParams, salientPassParams,
              losslessPassParams] using this
/-- The lossless-base branch creates the encoder and then performs
`losslessBaseCalls` up to the first failure; the first pass carries the image
that `SetFromFile` loaded. -/
theorem losslessBase_calls (env : Env) (cparams : CompressParams) (io : CodecInOut)
    (container : FileHeader) (compressed : PaddedBytes) (aux_out : PikInfo)
    (trace : List Call) :
    ∃ (t₁ t₂ : SingleImageManager) (st₁ st₂ st₃ : Status),
      (PixelsToPik.losslessBase env cparams io container compressed aux_out trace).Performs
        (trace ++ [Call.NewEncoder])
        (losslessBaseCalls cparams io
          (env.SetFromFile (CodecInOut.create io.context) cparams.lossless_base).2 t₁ t₂
          (env.SetFromFile (CodecInOut.create io.context) cparams.lossless_base).1
          st₁ st₂ st₃) := by
  unfold PixelsToPik.losslessBase
  simp only []
  generalize hs₀ : EncodeState.mk _ (_ ++ _) = s₀
  have ht₀ : s₀.trace = trace ++ [Call.NewEncoder,
      Call.SetFromFile cparams.lossless_base
        (env.SetFromFile (CodecInOut.create io.context) cparams.lossless_base).1] := by
    subst hs₀
    simp [applyAdaptiveReconstruction_trace, newEncoder]
  split
  · rename_i reason hm
    refine ⟨s₀.heap.transform, s₀.heap.transform, Status.ok, Status.ok, Status.ok, ?_⟩
    simp [EncodeResult.Performs, losslessBaseCalls, EncodeState.finish, ht₀, hm,
      untilFailure, firstFailure, Call.failed, Call.status]
  · rename_i hm
    rw [hm] at ht₀
    generalize hr : PIK_RETURN_IF_ERROR _ _ = r
    rcases PIK_RETURN_IF_ERROR_addPass hr with ⟨reason, s', h', rfl⟩ | ⟨s₁, h₁, rfl⟩
    · refine ⟨s₀.heap.transform, s₀.heap.transform, Status.failure reason, Status.ok,
        Status.ok, ?_⟩
      simp [EncodeResult.Performs, losslessBaseCalls, EncodeState.finish, h', ht₀, hm,
        untilFailure, firstFailure, Call.failed, Call.status]
    · generalize hr₂ : PIK_RETURN_IF_ERROR _ _ = r₂
      rcases PIK_RETURN_IF_ERROR_addPass hr₂ with ⟨reason, s', h', rfl⟩ | ⟨s₂, h₂, rfl⟩
      · refine ⟨s₀.heap.transform, s₁.heap.transform, Status.ok, Status.failure reason,
          Status.ok, ?_⟩
        simp [EncodeResult.Performs, losslessBaseCalls, EncodeState.finish, h', h₁, ht₀, hm,
          untilFailure, firstFailure, Call.failed, Call.status]
      · generalize hr₃ : PIK_RETURN_IF_ERROR _ _ = r₃
        rcases PIK_RETURN_IF_ERROR_finalize hr₃ with ⟨reason, s', h', rfl⟩ | ⟨s₃, h₃, rfl⟩
        · refine ⟨s₀.heap.transform, s₁.heap.transform, Status.ok, Status.ok,
            Status.failure reason, ?_⟩
          simp [EncodeResult.Performs, losslessBaseCalls, EncodeState.finish, h', h₂, h₁, ht₀,
            hm, untilFailure, firstFailure, Call.failed, Call.status]
        · refine ⟨s₀.heap.transform, s₁.heap.transform, Status.ok, Status.ok, Status.ok, ?_⟩
          simp [EncodeResult.Performs, losslessBaseCalls, EncodeState.finish, h₃, h₂, h₁, ht₀,
            hm, untilFailure, firstFailure, Call.failed, Call.status]

/-- The single-pass branch, when `PIK_CHECK` lets it through, queries the
header size and then performs `singlePassCalls` up to the first failure; the
pass starts at the position where the header writer stopped. -/
theorem singlePass_calls (env : Env) (cparams : CompressParams) (io : CodecInOut)
    (container : FileHeader) (compressed : PaddedBytes) (aux_out : PikInfo)
    (trace : List Call) (r : EncodeResult)
    (hrun : PixelsToPik.singlePass env cparams io container compressed aux_out trace = some r) :
    ∃ (st₁ st₂ : Status),
      r.Performs (trace ++ [Call.CanEncode])
        (singlePassCalls cparams io
          (env.WriteFileHeader container (env.CanEncode container).2.1 0
            (env.resize compressed
              (env.DivCeil (env.CanEncode container).2.2 env.kBitsPerByte))).2.1 st₁ st₂) := by
  unfold PixelsToPik.singlePass at hrun
  simp only [] at hrun
  split at hrun
  · exact absurd hrun (by simp)
  · split at hrun
    · rename_i reason hw
      have := Option.some.inj hrun
      subst this
      exact ⟨Status.failure reason, Status.ok, by
        simp [EncodeResult.Performs, singlePassCalls, hw, untilFailure, firstFailure,
          Call.failed, Call.status]⟩
    · rename_i hw
      split at hrun
      · rename_i reason hp
        have := Option.some.inj hrun
        subst this
        exact ⟨Status.ok, Status.failure reason, by
          simp [EncodeResult.Performs, singlePassCalls, hw, hp, untilFailure, firstFailure,
            Call.failed, Call.status]⟩
      · rename_i hp
        have := Option.some.inj hrun
        subst this
        exact ⟨Status.ok, Status.ok, by
          simp [EncodeResult.Performs, singlePassCalls, hw, hp, untilFailure, firstFailure,
            Call.failed, Call.status]⟩
/-- The calls made are an initial segment of the calls to perform. -/
theorem untilFailure_initial (l : List Call) : untilFailure l <+: l := by
  induction l with
  | nil => exact List.prefix_refl _
  | cons c rest ih =>
    unfold untilFailure
    split
    · exact ⟨rest, rfl⟩
    · exact (List.prefix_cons_inj c).mpr ih

/-- When no call fails, no call failed. -/
theorem not_failed_of_firstFailure_ok (l : List Call) (h : firstFailure l = Status.ok) :
    ∀ c ∈ l, c.failed = false := by
  induction l with
  | nil => simp
  | cons d rest ih =>
    have hd : d.failed = false := by
      cases hf : d.failed with
      | false => rfl
      | true =>
        unfold Call.failed at hf
        cases hs : d.status with
        | none => simp [hs] at hf
        | some st =>
          cases st with
          | ok => simp [hs] at hf
          | failure reason => simp [firstFailure, hs] at h
    rw [firstFailure_cons_of_not_failed d rest hd] at h
    intro c hc
    rcases List.mem_cons.mp hc with rfl | hc
    · exact hd
    · exact ih h c hc

/-- When no call fails, all calls are made. -/
theorem untilFailure_of_ok (l : List Call) (h : firstFailure l = Status.ok) :
    untilFailure l = l := by
  induction l with
  | nil => rfl
  | cons d rest ih =>
    have hd : d.failed = false :=
      not_failed_of_firstFailure_ok _ h d (List.mem_cons_self _ _)
    rw [firstFailure_cons_of_not_failed d rest hd] at h
    rw [untilFailure_cons_of_not_failed d rest hd, ih h]

/-- A call that failed is the last call made, and its status is returned. -/
theorem untilFailure_failed_last (l init rest : List Call) (c : Call)
    (h : untilFailure l = init ++ c :: rest) (hc : c.failed = true) :
    rest = [] ∧ c.status = some (firstFailure l) := by
  induction l generalizing init with
  | nil =>
    simp [untilFailure] at h
  | cons d l ih =>
    cases hd : d.failed with
    | true =>
      simp only [untilFailure, hd, if_true] at h
      cases init with
      | nil =>
        simp only [List.nil_append, List.cons.injEq] at h
        obtain ⟨rfl, hrest⟩ := h
        refine ⟨hrest.symm, ?_⟩
        unfold Call.failed at hd
        cases hs : d.status with
        | none => simp [hs] at hd
        | some st =>
          cases st with
          | ok => simp [hs] at hd
          | failure reason => simp [firstFailure, hs]
      | cons a init =>
        simp only [List.cons_append, List.cons.injEq] at h
        exact absurd h.2 (by simp)
    | false =>
      rw [untilFailure_cons_of_not_failed d l hd] at h
      rw [firstFailure_cons_of_not_failed d l hd]
      cases init with
      | nil =>
        simp only [List.nil_append, List.cons.injEq] at h
        rw [← h.1] at hc
        rw [hd] at hc
        exact absurd hc (by simp)
      | cons a init =>
        simp only [List.cons_append, List.cons.injEq] at h
        exact ih init h.2

/-- A successful function made all the calls it had to perform, and none failed. -/
theorem EncodeResult.Performs.of_ok {r : EncodeResult} {start calls : List Call}
    (h : r.Performs start calls) (hok : r.status = Status.ok) :
    r.trace = start ++ calls ∧ ∀ c ∈ calls, c.failed = false := by
  have hf : firstFailure calls = Status.ok := by rw [← h.2, hok]
  exact ⟨by rw [h.1, untilFailure_of_ok _ hf], not_failed_of_firstFailure_ok _ hf⟩

/-- A call that failed is the last call of the trace and gives the status. -/
theorem EncodeResult.Performs.failed_last {r : EncodeResult} {start calls : List Call}
    (h : r.Performs start calls) (hstart : ∀ c ∈ start, c.failed = false)
    (init rest : List Call) (c : Call) (ht : r.trace = init ++ c :: rest)
    (hc : c.failed = true) : rest = [] ∧ c.status = some r.status := by
  rw [h.2]
  rw [h.1] at ht
  clear h
  induction start generalizing init with
  | nil => exact untilFailure_failed_last calls init rest c (by simpa using ht) hc
  | cons a start ih =>
    cases init with
    | nil =>
      simp only [List.cons_append, List.nil_append, List.cons.injEq] at ht
      have := hstart a (List.mem_cons_self _ _)
      rw [ht.1, hc] at this
      exact absurd this (by simp)
    | cons b init =>
      simp only [List.cons_append, List.cons.injEq] at ht
      exact ih (fun d hd => hstart d (List.mem_cons_of_mem _ hd)) init ht.2

/-- An input without pixels or without bit-depth metadata is rejected before
any call is made. -/
theorem PixelsToPik_rejects (env : Env) (cparams : CompressParams)
    (io : CodecInOut) (compressed : PaddedBytes) (aux_out : PikInfo)
    (h : io.xsize = 0 ∨ io.ysize = 0 ∨ io.HasOriginalBitsPerSample = false) :
    ∃ reason, PixelsToPik env cparams io compressed aux_out =
      some { status := Status.failure reason, compressed := compressed,
             aux_out := aux_out, trace := [] } := by
  unfold PixelsToPik
  by_cases hz : io.xsize = 0 ∨ io.ysize = 0
  · exact ⟨kEmptyImage, by rw [if_pos hz]⟩
  · have hb : io.HasOriginalBitsPerSample = false := by
      rcases h with h | h | h
      · exact absurd (Or.inl h) hz
      · exact absurd (Or.inr h) hz
      · exact h
    exact ⟨kNoBitDepth, by rw [if_neg hz, hb]; rfl⟩
/-- Every run of `PixelsToPik` that returns is of one of four kinds: the input
is rejected before any call, or the header is built and one of the three
branches performs its calls up to the first failure. -/
theorem PixelsToPik_cases (env : Env) (cparams : CompressParams) (io : CodecInOut)
    (compressed : PaddedBytes) (aux_out : PikInfo) (r : EncodeResult)
    (hrun : PixelsToPik env cparams io compressed aux_out = some r) :
    ((io.xsize = 0 ∨ io.ysize = 0 ∨ io.HasOriginalBitsPerSample = false) ∧
      r.trace = [] ∧ ∃ reason, r.status = Status.failure reason) ∨
    (cparams.lossless_base ≠ "" ∧
      ∃ (t₁ t₂ : SingleImageManager) (st₁ st₂ st₃ : Status),
        r.Performs [Call.MakeFileHeader, Call.NewEncoder]
          (losslessBaseCalls cparams io
            (env.SetFromFile (CodecInOut.create io.context) cparams.lossless_base).2 t₁ t₂
            (env.SetFromFile (CodecInOut.create io.context) cparams.lossless_base).1
            st₁ st₂ st₃)) ∨
    (cparams.lossless_base = "" ∧ cparams.progressive_mode = false ∧
      ∃ (pos : Nat) (st₁ st₂ : Status),
        r.Performs [Call.MakeFileHeader, Call.CanEncode]
          (singlePassCalls cparams io pos st₁ st₂)) ∨
    (cparams.lossless_base = "" ∧ cparams.progressive_mode = true ∧
      ∃ (t₁ t₂ t₃ t₄ : SingleImageManager) (st₁ st₂ st₃ st₄ st₅ st₆ : Status),
        t₁.mode = ProgressiveMode.kLfOnly ∧ t₂.mode = ProgressiveMode.kSalientHfOnly ∧
        t₃.mode = finalScope cparams ∧
        r.Performs [Call.MakeFileHeader, Call.NewEncoder]
          (progressiveCalls cparams io t₁ t₂ t₃ t₄ st₁ st₂ st₃ st₄ st₅ st₆)) := by
  by_cases hx : io.xsize = 0
  · obtain ⟨reason, h⟩ := PixelsToPik_rejects env cparams io compressed aux_out (Or.inl hx)
    rw [h] at hrun
    have := Option.some.inj hrun
    subst this
    exact Or.inl ⟨Or.inl hx, rfl, reason, rfl⟩
  by_cases hy : io.ysize = 0
  · obtain ⟨reason, h⟩ := PixelsToPik_rejects env cparams io compressed aux_out
      (Or.inr (Or.inl hy))
    rw [h] at hrun
    have := Option.some.inj hrun
    subst this
    exact Or.inl ⟨Or.inr (Or.inl hy), rfl, reason, rfl⟩
  cases hb : io.HasOriginalBitsPerSample with
  | false =>
    obtain ⟨reason, h⟩ := PixelsToPik_rejects env cparams io compressed aux_out
      (Or.inr (Or.inr hb))
    rw [h] at hrun
    have := Option.some.inj hrun
    subst this
    exact Or.inl ⟨Or.inr (Or.inr rfl), rfl, reason, rfl⟩
  | true =>
    rw [PixelsToPik_of_valid env cparams io compressed aux_out hx hy hb] at hrun
    by_cases hbase : cparams.lossless_base = ""
    · rw [if_neg (by simpa using hbase)] at hrun
      cases hp : cparams.progressive_mode with
      | false =>
        rw [if_pos hp] at hrun
        obtain ⟨st₁, st₂, h⟩ := singlePass_calls env cparams io _ compressed aux_out _ r hrun
        exact Or.inr (Or.inr (Or.inl ⟨hbase, rfl, _, st₁, st₂, h⟩))
      | true =>
        rw [if_neg (by simp [hp])] at hrun
        have := Option.some.inj hrun
        subst this
        exact Or.inr (Or.inr (Or.inr ⟨hbase, rfl,
          progressive_calls env cparams io _ compressed aux_out _⟩))
    · rw [if_pos hbase] at hrun
      have := Option.some.inj hrun
      subst this
      exact Or.inr (Or.inl ⟨hbase, losslessBase_calls env cparams io _ compressed aux_out _⟩)

/-- The passes encoded are an initial segment of the passes to encode. -/
theorem EncodeResult.Performs.passes_initial {r : EncodeResult} {start calls : List Call}
    (h : r.Performs start calls) : passes r.trace <+: passes (start ++ calls) := by
  rw [h.1]
  exact List.IsPrefix.filterMap _ ((List.prefix_append_right_inj start).mpr
    (untilFailure_initial calls))

/-- Every call made is one of the calls to perform. -/
theorem EncodeResult.Performs.mem {r : EncodeResult} {start calls : List Call}
    (h : r.Performs start calls) (c : Call) (hc : c ∈ r.trace) : c ∈ start ++ calls := by
  rw [h.1] at hc
  exact ((List.prefix_append_right_inj start).mpr (untilFailure_initial calls)).subset hc

/-- In an initial segment of flags of which only the final one is set, nothing
follows a flag that is set. -/
theorem nothing_after_last_flag (l full : List Bool) (n : Nat)
    (hfull : full = List.replicate n false ++ [true]) (hpre : l <+: full)
    (init rest : List Bool) (hl : l = init ++ true :: rest) : rest = [] := by
  obtain ⟨t, ht⟩ := hpre
  by_contra hrest
  have hne : rest ++ t ≠ [] := by simp [hrest]
  have h₁ : init ++ true :: (rest ++ t) = List.replicate n false ++ [true] := by
    rw [← hfull, ← ht, hl]
    simp
  have h₂ : (init ++ true :: (rest ++ t)).dropLast = List.replicate n false := by
    rw [h₁]
    simp
  have h₃ : true ∈ List.replicate n false := by
    rw [← h₂, List.dropLast_append_of_ne_nil _ (by simp), List.dropLast_cons_of_ne_nil hne]
    simp
  simp [List.mem_replicate] at h₃

/-- In each branch, of the passes to encode only the final one is marked last. -/
theorem PixelsToPik_last_pass_shape (env : Env) (cparams : CompressParams) (io : CodecInOut)
    (compressed : PaddedBytes) (aux_out : PikInfo) (r : EncodeResult)
    (hrun : PixelsToPik env cparams io compressed aux_out = some r) :
    (r.trace = [] ∧ ∃ reason, r.status = Status.failure reason) ∨
    ∃ (start calls : List Call) (n : Nat),
      r.Performs start calls ∧
      (passes (start ++ calls)).map Pass.is_last = List.replicate n false ++ [true] := by
  rcases PixelsToPik_cases env cparams io compressed aux_out r hrun with
    h | ⟨_, t₁, t₂, st₁, st₂, st₃, h⟩ | ⟨_, _, pos, st₁, st₂, h⟩ |
    ⟨_, _, t₁, t₂, t₃, t₄, st₁, st₂, st₃, st₄, st₅, st₆, h₁, h₂, h₃, h⟩
  · exact Or.inl h.2
  · exact Or.inr ⟨_, _, 1, h, by simp [passes, Call.pass, losslessBaseCalls]⟩
  · exact Or.inr ⟨_, _, 0, h, by simp [passes, Call.pass, singlePassCalls]⟩
  · by_cases hs : cparams.saliency_extractor_for_progressive_mode = "" <;>
    cases hl : cparams.lossless_mode
    · exact Or.inr ⟨_, _, 1, h, by simp [passes, Call.pass, progressiveCalls, hs, hl]⟩
    · exact Or.inr ⟨_, _, 2, h, by
        simp [passes, Call.pass, progressiveCalls, hs, hl, List.replicate]⟩
    · exact Or.inr ⟨_, _, 2, h, by
        simp [passes, Call.pass, progressiveCalls, hs, hl, List.replicate]⟩
    · exact Or.inr ⟨_, _, 3, h, by
        simp [passes, Call.pass, progressiveCalls, hs, hl, List.replicate]⟩

/-- For a buffer without the foreign magic whose header parses, `PikToPixels`
runs the pass loop from the objects `PikToPixels.start` prepared. -/
theorem PikToPixels_of_header_ok (env : Env) (fuel : Nat) (dparams : DecompressParams)
    (compressed : PaddedBytes) (io : CodecInOut) (aux_out : PikInfo)
    (hmagic : IsBrunsliFile compressed = false)
    (hheader : (PikToPixels.start env compressed io aux_out).1 = Status.ok) :
    PikToPixels env fuel dparams compressed io aux_out =
      (decodePasses env dparams compressed (PikToPixels.start env compressed io aux_out).2.1
        fuel (PikToPixels.start env compressed io aux_out).2.2).map
        (PikToPixels.finish env dparams compressed) := by
  unfold PikToPixels
  simp only [hmagic, Bool.false_eq_true, if_false, hheader]
  cases decodePasses env dparams compressed (PikToPixels.start env compressed io aux_out).2.1
      fuel (PikToPixels.start env compressed io aux_out).2.2 with
  | none => rfl
  | some x =>
    obtain ⟨st, s⟩ := x
    cases st with
    | ok =>
      simp only [Option.map_some', PikToPixels.finish]
      split <;> rfl
    | failure reason => rfl
/-- The loop returns success right after pass `k` when that is the first pass
for which the accumulator reports the last pass and the passes up to it
decode: the calls made are exactly these `k` passes. -/
theorem decodePasses_first_last (env : Env) (dparams : DecompressParams)
    (compressed : PaddedBytes) (container : FileHeader) (k : Nat) :
    ∀ (fuel : Nat) (s : DecodeState) (hk : DecoderHeap), 1 ≤ k → k ≤ fuel →
      passesDecoded env dparams compressed container k s.heap = some hk →
      hk.transform.IsLastPass = true →
      (∀ (j : Nat) (hj : DecoderHeap), 1 ≤ j → j < k →
        passesDecoded env dparams compressed container j s.heap = some hj →
        hj.transform.IsLastPass = false) →
      decodePasses env dparams compressed container fuel s =
        some (Status.ok,
          { heap := hk,
            trace := s.trace ++ passCalls env dparams compressed container k s.heap }) := by
  induction k with
  | zero => intro fuel s hk h1; exact absurd h1 (by decide)
  | succ k ih =>
    intro fuel s hk _ hfuel hdec hlast hfirst
    obtain ⟨fuel, rfl⟩ : ∃ f, fuel = f + 1 := ⟨fuel - 1, by omega⟩
    unfold passesDecoded at hdec
    unfold decodePasses
    cases hp : env.PikPassToPixels dparams compressed container s.heap with
    | mk st h₁ =>
      rw [hp] at hdec
      cases st with
      | failure reason => simp at hdec
      | ok =>
        simp only at hdec
        simp only [hp]
        cases k with
        | zero =>
          simp only [passesDecoded, Option.some.injEq] at hdec
          subst hdec
          simp [hlast, passCalls, hp]
        | succ k =>
          have h₁last : h₁.transform.IsLastPass = false := by
            apply hfirst 1 h₁ (le_refl 1) (by omega)
            simp [passesDecoded, hp]
          simp only [h₁last, Bool.not_false, if_true]
          rw [ih fuel _ hk (by omega) (by omega) hdec hlast]
          · simp [passCalls, hp]
          · intro j hj hj1 hjk hjd
            apply hfirst (j + 1) hj (by omega) (by omega)
            simp only [passesDecoded, hp]
            exact hjd

/-- The loop returns the failure of pass `k + 1` when the `k` passes before it
decode without the accumulator reporting the last pass: the calls made are
exactly these `k + 1` passes. -/
theorem decodePasses_first_failure (env : Env) (dparams : DecompressParams)
    (compressed : PaddedBytes) (container : FileHeader) (k : Nat) :
    ∀ (fuel : Nat) (s : DecodeState) (hk : DecoderHeap) (reason : String), k + 1 ≤ fuel →
      passesDecoded env dparams compressed container k s.heap = some hk →
      (env.PikPassToPixels dparams compressed container hk).1 = Status.failure reason →
      (∀ (j : Nat) (hj : DecoderHeap), 1 ≤ j → j ≤ k →
        passesDecoded env dparams compressed container j s.heap = some hj →
        hj.transform.IsLastPass = false) →
      decodePasses env dparams compressed container fuel s =
        some (Status.failure reason,
          { heap := (env.PikPassToPixels dparams compressed container hk).2,
            trace := s.trace ++
              passCalls env dparams compressed container (k + 1) s.heap }) := by
  induction k with
  | zero =>
    intro fuel s hk reason hfuel hdec hfail _
    obtain ⟨fuel, rfl⟩ : ∃ f, fuel = f + 1 := ⟨fuel - 1, by omega⟩
    simp only [passesDecoded, Option.some.injEq] at hdec
    subst hdec
    unfold decodePasses
    simp [hfail, passCalls]
  | succ k ih =>
    intro fuel s hk reason hfuel hdec hfail hfirst
    obtain ⟨fuel, rfl⟩ : ∃ f, fuel = f + 1 := ⟨fuel - 1, by omega⟩
    unfold passesDecoded at hdec
    unfold decodePasses
    cases hp : env.PikPassToPixels dparams compressed container s.heap with
    | mk st h₁ =>
      rw [hp] at hdec
      cases st with
      | failure reason => simp at hdec
      | ok =>
        simp only at hdec
        simp only [hp]
        have h₁last : h₁.transform.IsLastPass = false := by
          apply hfirst 1 h₁ (le_refl 1) (by omega)
          simp [passesDecoded, hp]
        simp only [h₁last, Bool.not_false, if_true]
        rw [ih fuel _ hk reason (by omega) hdec hfail]
        · simp [passCalls, hp]
        · intro j hj hj1 hjk hjd
          apply hfirst (j + 1) hj (by omega) (by omega)
          simp only [passesDecoded, hp]
          exact hjd

/-- Whenever the loop returns, it has decoded at least one pass, and the calls
it made are passes decoded one after the other. -/
theorem decodePasses_trace (env : Env) (dparams : DecompressParams)
    (compressed : PaddedBytes) (container : FileHeader) (fuel : Nat) :
    ∀ (s s' : DecodeState) (st : Status),
      decodePasses env dparams compressed container fuel s = some (st, s') →
      ∃ k, 1 ≤ k ∧
        s'.trace = s.trace ++ passCalls env dparams compressed container k s.heap := by
  induction fuel with
  | zero => intro s s' st h; simp [decodePasses] at h
  | succ fuel ih =>
    intro s s' st h
    unfold decodePasses at h
    simp only at h
    split at h
    · simp only [Option.some.injEq, Prod.mk.injEq] at h
      refine ⟨1, le_refl 1, ?_⟩
      rw [← h.2]
      simp [passCalls]
    · split at h
      · obtain ⟨k, hk, ht⟩ := ih _ _ _ h
        refine ⟨k + 1, by omega, ?_⟩
        rw [ht]
        simp [passCalls]
      · simp only [Option.some.injEq, Prod.mk.injEq] at h
        refine ⟨1, le_refl 1, ?_⟩
        rw [← h.2]
        simp [passCalls]

/-- A list of pass calls counts as many passes as it has calls. -/
theorem passCount_passCalls (env : Env) (dparams : DecompressParams)
    (compressed : PaddedBytes) (container : FileHeader) (k : Nat) (h : DecoderHeap) :
    passCount (passCalls env dparams compressed container k h) = k := by
  induction k generalizing h with
  | zero => rfl
  | succ k ih =>
    have := ih (env.PikPassToPixels dparams compressed container h).2
    simp only [passCount] at this ⊢
    simp [passCalls, DecodeCall.isPass, this]

/-- Counting passes over an append. -/
theorem passCount_append (t₁ t₂ : List DecodeCall) :
    passCount (t₁ ++ t₂) = passCount t₁ + passCount t₂ := by
  simp [passCount]

/-- Before the loop no pass has been decoded. -/
theorem passCount_start (env : Env) (compressed : PaddedBytes) (io : CodecInOut)
    (aux_out : PikInfo) :
    passCount (PikToPixels.start env compressed io aux_out).2.2.trace = 0 := by
  unfold PikToPixels.start
  simp only []
  split <;> simp [passCount, DecodeCall.isPass]
/-- The sniff looks at the first seven bytes only. -/
theorem IsBrunsliFile_iff (compressed : PaddedBytes) :
    IsBrunsliFile compressed = true ↔
      7 ≤ compressed.length ∧ compressed.take 7 = [0x0A, 0x04, 66, 0xD2, 0xD5, 78, 0x12] := by
  unfold IsBrunsliFile
  simp only [show kBrunsliMagic.length = 7 from rfl,
    show kBrunsliMagic = [0x0A, 0x04, 66, 0xD2, 0xD5, 78, 0x12] from rfl]
  by_cases hlen : compressed.length < 7
  · simp [hlen]
  · by_cases hm : compressed.take 7 = [0x0A, 0x04, 66, 0xD2, 0xD5, 78, 0x12]
    · simp [hlen, hm]
      omega
    · simp [hlen, hm]

/-- Clenshaw's invariant: run from index `i` with `b1` and `b2`, the recursion
returns the series up to `i` plus `b1 * T (i + 1) - b2 * T i`. -/
theorem ClenshawRecursion_fst {R : Type} [CommRing R] (x : R) (c : List R) (i : Nat) :
    ∀ b1 b2 : R, (ClenshawRecursion x c i (b1, b2)).1 =
      Finset.sum (Finset.range (i + 1)) (fun k => c.getD k 0 * chebyshevT x k) +
        b1 * chebyshevT x (i + 1) - b2 * chebyshevT x i := by
  induction i with
  | zero =>
    intro b1 b2
    simp [ClenshawRecursion, chebyshevT]
    ring
  | succ i ih =>
    intro b1 b2
    rw [ClenshawRecursion, ih, Finset.sum_range_succ _ (i + 1)]
    simp only [chebyshevT]
    ring

/-- The lowest-frequency coefficients are the top `(N/8) x (N/8)` sub-block. -/
theorem llfCoefficients_eq (N : Nat) :
    llfCoefficients N = Finset.range (N / 8) ×ˢ Finset.range (N / 8) := by
  ext p
  simp only [llfCoefficients, blockCoefficients, isLlf, Finset.mem_filter, Finset.mem_product,
    Finset.mem_range, Bool.and_eq_true, decide_eq_true_eq]
  constructor
  · rintro ⟨_, h⟩
    exact h
  · rintro ⟨h₁, h₂⟩
    exact ⟨⟨by omega, by omega⟩, h₁, h₂⟩

/-- The two lower tiers together are the top `(N/4) x (N/4)` sub-block. -/
theorem llf_union_lf_eq (N : Nat) :
    llfCoefficients N ∪ lfCoefficients N = Finset.range (N / 4) ×ˢ Finset.range (N / 4) := by
  ext p
  simp only [llfCoefficients, lfCoefficients, blockCoefficients, isLf, isLlf, Finset.mem_union,
    Finset.mem_filter, Finset.mem_product, Finset.mem_range, Bool.and_eq_true,
    decide_eq_true_eq, Bool.not_eq_true', Bool.and_eq_false_imp]
  constructor
  · rintro (⟨_, h₁, h₂⟩ | ⟨_, h, _⟩)
    · exact ⟨by omega, by omega⟩
    · exact h
  · rintro ⟨h₁, h₂⟩
    by_cases h : p.1 < N / 8 ∧ p.2 < N / 8
    · exact Or.inl ⟨⟨by omega, by omega⟩, h⟩
    · refine Or.inr ⟨⟨by omega, by omega⟩, ⟨h₁, h₂⟩, ?_⟩
      intro h₃
      by_contra h₄
      exact h ⟨h₃, by simpa using h₄⟩

/-- When the header parses the same way over another buffer, the loop starts
with the same header and the same objects over that buffer. -/
theorem start_over (env : Env) (d data : PaddedBytes) (io : CodecInOut) (aux_out : PikInfo)
    (r₁ : BitReader) (c : FileHeader)
    (hp : env.ReadFileHeader (BitReader.create d) = (Status.ok, r₁, c))
    (hp' : env.ReadFileHeader (BitReader.create data) = (Status.ok, r₁.over data, c)) :
    (PikToPixels.start env data io aux_out).1 = Status.ok ∧
    (PikToPixels.start env data io aux_out).2.1 = (PikToPixels.start env d io aux_out).2.1 ∧
    (PikToPixels.start env data io aux_out).2.2.heap =
      (PikToPixels.start env d io aux_out).2.2.heap.over data := by
  unfold PikToPixels.start
  simp only [hp, hp']
  refine ⟨trivial, trivial, ?_⟩
  split <;> rfl

/-- What `PikToPixels.start` prepares when the header parses: the reader has
skipped `preview.size_bits` bits after the header, and that skip is the only
call recorded after the header read, if there is anything to skip. -/
theorem start_skips (env : Env) (d : PaddedBytes) (io : CodecInOut) (aux_out : PikInfo)
    (r₁ : BitReader) (c : FileHeader)
    (hp : env.ReadFileHeader (BitReader.create d) = (Status.ok, r₁, c)) :
    PikToPixels.start env d io aux_out =
      (Status.ok, c,
        { heap := { reader := { data := r₁.data, bits := r₁.bits + c.preview_size_bits },
                    io := io, aux_out := aux_out, transform := SingleImageManager.create },
          trace := DecodeCall.ReadFileHeader Status.ok ::
            (if c.preview_size_bits ≠ 0 then [DecodeCall.SkipBits c.preview_size_bits]
             else []) }) := by
  unfold PikToPixels.start
  simp only [hp]
  by_cases hn : c.preview_size_bits = 0
  · simp [hn]
  · simp [hn, BitReader.SkipBits]

/-- Over a buffer of the same length with the same bits from the cursor on,
the loop returns the same status and leaves the same objects. -/
theorem decodePasses_over {env : Env} (hdet : ReadsFromCursor env)
    (dparams : DecompressParams) (container : FileHeader) (d data : PaddedBytes)
    (hlen : data.length = d.length) (fuel : Nat) :
    ∀ (s s₂ : DecodeState), s.heap.reader.data = d → s₂.heap = s.heap.over data →
      (∀ i, s.heap.reader.bits ≤ i → bitAt data i = bitAt d i) →
      (decodePasses env dparams data container fuel s₂).map
          (fun x => (x.1, x.2.heap)) =
        (decodePasses env dparams d container fuel s).map
          (fun x => (x.1, x.2.heap.over data)) := by
  induction fuel with
  | zero => intro s s₂ _ _ _; rfl
  | succ fuel ih =>
    intro s s₂ hs hs₂ hbits
    unfold decodePasses
    simp only
    cases hp : env.PikPassToPixels dparams d container s.heap with
    | mk st h₁ =>
      have hloc := hdet.pass_from_cursor dparams container s.heap h₁ st data
        (by rw [hs]; exact hlen) (by rw [hs]; exact hp) (by rw [hs]; exact hbits)
      rw [hs₂, hloc]
      cases st with
      | failure reason => rfl
      | ok =>
        have hf := hdet.pass_forward dparams container s.heap h₁ (by rw [hs]; exact hp)
        simp only
        have hlast : (h₁.over data).transform.IsLastPass = h₁.transform.IsLastPass := rfl
        rw [hlast]
        split
        · exact ih _ _ (by simpa [hs] using hf.2) rfl
            (fun i hi => hbits i (Nat.le_trans hf.1 hi))
        · rfl
/-- Over a buffer of the same length with the same bits outside the preview,
`PikToPixels` returns the same status and the same image, when neither buffer
carries the foreign magic. -/
theorem PikToPixels_over {env : Env} (hdet : ReadsFromCursor env) (fuel : Nat)
    (dparams : DecompressParams) (d data : PaddedBytes) (io : CodecInOut) (aux_out : PikInfo)
    (r₁ : BitReader) (c : FileHeader)
    (hp : env.ReadFileHeader (BitReader.create d) = (Status.ok, r₁, c))
    (hm : IsBrunsliFile d = false) (hm' : IsBrunsliFile data = false)
    (hlen : data.length = d.length)
    (hbits : ∀ i, i < r₁.bits ∨ r₁.bits + c.preview_size_bits ≤ i →
      bitAt data i = bitAt d i) :
    (PikToPixels env fuel dparams data io aux_out).map (fun r => (r.status, r.image)) =
      (PikToPixels env fuel dparams d io aux_out).map (fun r => (r.status, r.image)) := by
  have hp' : env.ReadFileHeader (BitReader.create data) = (Status.ok, r₁.over data, c) :=
    hdet.header_self_delimiting (BitReader.create d) r₁ c data hlen hp
      (fun i _ hi => hbits i (Or.inl hi))
  have hst := start_skips env d io aux_out r₁ c hp
  obtain ⟨hh', hc', hheap'⟩ := start_over env d data io aux_out r₁ c hp hp'
  have hh : (PikToPixels.start env d io aux_out).1 = Status.ok := by rw [hst]
  have hdata : (PikToPixels.start env d io aux_out).2.2.heap.reader.data = d := by
    rw [hst]
    exact hdet.header_forward _ _ _ hp
  have hcur : (PikToPixels.start env d io aux_out).2.2.heap.reader.bits =
      r₁.bits + c.preview_size_bits := by rw [hst]
  have hloop := decodePasses_over hdet dparams (PikToPixels.start env d io aux_out).2.1 d data
    hlen fuel _ _ hdata hheap' (fun i hi => hbits i (Or.inr (by rw [← hcur]; exact hi)))
  rw [PikToPixels_of_header_ok env fuel dparams data io aux_out hm' hh',
    PikToPixels_of_header_ok env fuel dparams d io aux_out hm hh, hc']
  cases hd : decodePasses env dparams d (PikToPixels.start env d io aux_out).2.1 fuel
      (PikToPixels.start env d io aux_out).2.2 with
  | none =>
    rw [hd] at hloop
    cases hd' : decodePasses env dparams data (PikToPixels.start env d io aux_out).2.1 fuel
        (PikToPixels.start env data io aux_out).2.2 with
    | none => rfl
    | some y => rw [hd'] at hloop; simp at hloop
  | some x =>
    rw [hd] at hloop
    cases hd' : decodePasses env dparams data (PikToPixels.start env d io aux_out).2.1 fuel
        (PikToPixels.start env data io aux_out).2.2 with
    | none => rw [hd'] at hloop; simp at hloop
    | some y =>
      rw [hd'] at hloop
      obtain ⟨st, s⟩ := x
      obtain ⟨st', s'⟩ := y
      simp only [Option.map_some', Option.some.injEq, Prod.mk.injEq] at hloop ⊢
      obtain ⟨rfl, hheap⟩ := hloop
      cases st' with
      | failure reason => exact ⟨rfl, by simp [PikToPixels.finish, hheap, DecoderHeap.over]⟩
      | ok =>
        have hpos : env.Position s'.heap.reader = env.Position s.heap.reader := by
          rw [hheap]
          exact hdet.position_cursor _ _
        simp only [PikToPixels.finish, hpos, hlen]
        split
        · exact ⟨rfl, by simp [hheap, DecoderHeap.over]⟩
        · exact ⟨rfl, by simp [hheap, DecoderHeap.over]⟩
/-- What a successful header read of the codec that reads bits returns. -/
theorem toyBitReadFileHeader_ok (r r' : BitReader) (c : FileHeader)
    (h : toyBitReadFileHeader r = (Status.ok, r', c)) :
    r.bits + 4 ≤ 8 * r.data.length ∧ bitAt r.data r.bits = true ∧
      r' = { r with bits := r.bits + 4 } ∧
      c = { preview_size_bits := readBits r.data (r.bits + 1) 3, fields := [] } := by
  unfold toyBitReadFileHeader at h
  split at h
  · rename_i hc
    simp only [Prod.mk.injEq, true_and] at h
    exact ⟨hc.1, hc.2, h.1.symm, h.2.symm⟩
  · simp at h

/-- The codec that reads bits reads from the cursor on. -/
theorem toyBitEnv_readsFromCursor : ReadsFromCursor toyBitEnv where
  position_cursor := by
    intro r data
    rfl
  header_forward := by
    intro r r' c h
    obtain ⟨_, _, rfl, _⟩ := toyBitReadFileHeader_ok r r' c h
    rfl
  header_self_delimiting := by
    intro r r' c data hlen h hbits
    obtain ⟨h₁, h₂, rfl, rfl⟩ := toyBitReadFileHeader_ok r r' c h
    simp only at hbits
    have e₀ := hbits r.bits (Nat.le_refl _) (by omega)
    have e₁ := hbits (r.bits + 1 + 0) (by omega) (by omega)
    have e₂ := hbits (r.bits + 1 + 1) (by omega) (by omega)
    have e₃ := hbits (r.bits + 1 + 2) (by omega) (by omega)
    show toyBitReadFileHeader (r.over data) = _
    unfold toyBitReadFileHeader
    simp only [BitReader.over, hlen, e₀, h₂, h₁, and_self, if_true, readBits, List.range,
      List.range.loop, List.map, e₁, e₂, e₃]
  pass_forward := by
    intro dparams container h h' hp
    have hp' : toyBitPikPassToPixels dparams h.reader.data container h = (Status.ok, h') := hp
    unfold toyBitPikPassToPixels at hp'
    split at hp'
    · simp only [Prod.mk.injEq, true_and] at hp'
      rw [← hp']
      exact ⟨Nat.le_add_right _ _, rfl⟩
    · simp at hp'
  pass_from_cursor := by
    intro dparams container h h' st data hlen hp hbits
    have hp' : toyBitPikPassToPixels dparams h.reader.data container h = (st, h') := hp
    have e₀ := hbits h.reader.bits (Nat.le_refl _)
    have e₁ := hbits (h.reader.bits + 1) (by omega)
    show toyBitPikPassToPixels dparams data container (h.over data) = _
    unfold toyBitPikPassToPixels at hp' ⊢
    simp only [DecoderHeap.over, BitReader.over, hlen, e₀, e₁]
    split at hp'
    · rename_i hc
      rw [if_pos hc]
      simp only [Prod.mk.injEq] at hp'
      rw [← hp'.1, ← hp'.2]
    · rename_i hc
      rw [if_neg hc]
      simp only [Prod.mk.injEq] at hp'
      rw [← hp'.1, ← hp'.2]

/-- Past the end of the buffer the bits are 0. -/
theorem bitAt_of_le (data : PaddedBytes) (i : Nat) (h : 8 * data.length ≤ i) :
    bitAt data i = false := by
  unfold bitAt
  rw [List.getD_eq_default _ _ (by omega)]
  simp

/-- The trace `PikToPixels` returns is the trace of the loop. -/
theorem PikToPixels.finish_trace (env : Env) (dparams : DecompressParams)
    (compressed : PaddedBytes) (x : Status × DecodeState) :
    (PikToPixels.finish env dparams compressed x).trace = x.2.trace := by
  obtain ⟨st, s⟩ := x
  cases st with
  | ok =>
    simp only [PikToPixels.finish]
    split <;> rfl
  | failure reason => rfl


/-- What a successful header read of the codec with a one-byte header
returns. -/
theorem toyByteReadFileHeader_ok (r r' : BitReader) (c : FileHeader)
    (h : toyByteReadFileHeader r = (Status.ok, r', c)) :
    r.bits + 8 ≤ 8 * r.data.length ∧
      r' = { r with bits := r.bits + 8 } ∧
      c = { preview_size_bits := readBits r.data r.bits 8, fields := [] } := by
  unfold toyByteReadFileHeader at h
  split at h
  · rename_i hc
    simp only [Prod.mk.injEq, true_and] at h
    exact ⟨hc, h.1.symm, h.2.symm⟩
  · simp at h

/-- The codec with a one-byte header reads from the cursor on. -/
theorem toyByteEnv_readsFromCursor : ReadsFromCursor toyByteEnv where
  position_cursor := by
    intro r data
    rfl
  header_forward := by
    intro r r' c h
    obtain ⟨_, rfl, _⟩ := toyByteReadFileHeader_ok r r' c h
    rfl
  header_self_delimiting := by
    intro r r' c data hlen h hbits
    obtain ⟨h₁, rfl, rfl⟩ := toyByteReadFileHeader_ok r r' c h
    simp only at hbits
    have e₀ := hbits (r.bits + 0) (by omega) (by omega)
    have e₁ := hbits (r.bits + 1) (by omega) (by omega)
    have e₂ := hbits (r.bits + 2) (by omega) (by omega)
    have e₃ := hbits (r.bits + 3) (by omega) (by omega)
    have e₄ := hbits (r.bits + 4) (by omega) (by omega)
    have e₅ := hbits (r.bits + 5) (by omega) (by omega)
    have e₆ := hbits (r.bits + 6) (by omega) (by omega)
    have e₇ := hbits (r.bits + 7) (by omega) (by omega)
    show toyByteReadFileHeader (r.over data) = _
    unfold toyByteReadFileHeader
    simp only [BitReader.over, hlen, h₁, if_true, readBits, List.range,
      List.range.loop, List.map, e₀, e₁, e₂, e₃, e₄, e₅, e₆, e₇]
  pass_forward := toyBitEnv_readsFromCursor.pass_forward
  pass_from_cursor := toyBitEnv_readsFromCursor.pass_from_cursor

/-- Over a buffer of the same length with the same bits outside the preview
that is on the same route, `PikToPixels` returns the same status and the same
image. -/
theorem PikToPixels_same_route {env : Env} (hdet : ReadsFromCursor env) (fuel : Nat)
    (dparams : DecompressParams) (d data : PaddedBytes) (io : CodecInOut) (aux_out : PikInfo)
    (r₁ : BitReader) (c : FileHeader)
    (hp : env.ReadFileHeader (BitReader.create d) = (Status.ok, r₁, c))
    (hroute : IsBrunsliFile data = IsBrunsliFile d)
    (hlen : data.length = d.length)
    (hbits : ∀ i, i < r₁.bits ∨ r₁.bits + c.preview_size_bits ≤ i →
      bitAt data i = bitAt d i) :
    (PikToPixels env fuel dparams data io aux_out).map (fun r => (r.status, r.image)) =
      (PikToPixels env fuel dparams d io aux_out).map (fun r => (r.status, r.image)) := by
  cases hm : IsBrunsliFile d with
  | false =>
    exact PikToPixels_over hdet fuel dparams d data io aux_out r₁ c hp hm (by rw [hroute, hm])
      hlen hbits
  | true =>
    have hm' : IsBrunsliFile data = true := by rw [hroute, hm]
    simp only [PikToPixels, hm, hm', if_true, Option.map_some', BrunsliToPixels]

/-! # Properties of the entry points -/

/-- C2: when the width or the height of the input is 0, or the input has no
original-bits-per-sample metadata, `PixelsToPik` returns a failure at once: no
call is made (no header is built or written, no pass is encoded) and the
output buffer and the statistics are those it was given. -/
theorem PixelsToPik_rejects_invalid_input (env : Env) (cparams : CompressParams)
    (io : CodecInOut) (compressed : PaddedBytes) (aux_out : PikInfo)
    (h : io.xsize = 0 ∨ io.ysize = 0 ∨ io.HasOriginalBitsPerSample = false) :
    ∃ reason, PixelsToPik env cparams io compressed aux_out =
      some { status := Status.failure reason, compressed := compressed,
             aux_out := aux_out, trace := [] } := by
  unfold PixelsToPik
  by_cases hz : io.xsize = 0 ∨ io.ysize = 0
  · exact ⟨kEmptyImage, by rw [if_pos hz]⟩
  · have hb : io.HasOriginalBitsPerSample = false := by
      rcases h with h | h | h
      · exact absurd (Or.inl h) hz
      · exact absurd (Or.inr h) hz
      · exact h
    exact ⟨kNoBitDepth, by rw [if_neg hz, hb]; rfl⟩

theorem PixelsToPik_rejects_invalid_input_witness :
    (({ toyImage with ysize := 0 } : CodecInOut).xsize = 0 ∨
      ({ toyImage with ysize := 0 } : CodecInOut).ysize = 0 ∨
      ({ toyImage with ysize := 0 } : CodecInOut).HasOriginalBitsPerSample = false) ∧
    ∃ reason, PixelsToPik toyEnv toyParams { toyImage with ysize := 0 } [9, 9] [3] =
      some { status := Status.failure reason, compressed := [9, 9],
             aux_out := [3], trace := [] } :=
  ⟨by decide,
    PixelsToPik_rejects_invalid_input toyEnv toyParams { toyImage with ysize := 0 } [9, 9] [3]
      (by decide)⟩

/-- C3: for a valid input, an empty lossless base path and progressive mode
off, a successful `PixelsToPik` builds the header, sizes the buffer, writes the
header and then encodes exactly one pass: with the caller's parameters
unchanged, `is_last = true`, on a freshly created accumulator (scope: full
image), at the position where the header writer stopped. -/
theorem PixelsToPik_single_pass (env : Env) (cparams : CompressParams)
    (io : CodecInOut) (compressed : PaddedBytes) (aux_out : PikInfo) (r : EncodeResult)
    (hx : io.xsize ≠ 0) (hy : io.ysize ≠ 0) (hb : io.HasOriginalBitsPerSample = true)
    (hbase : cparams.lossless_base = "") (hprog : cparams.progressive_mode = false)
    (hrun : PixelsToPik env cparams io compressed aux_out = some r)
    (hok : r.status = Status.ok) :
    let container := env.MakeFileHeader cparams io
    let sizes := env.CanEncode container
    let written := env.WriteFileHeader container sizes.2.1 0
      (env.resize compressed (env.DivCeil sizes.2.2 env.kBitsPerByte))
    r.trace = [Call.MakeFileHeader, Call.CanEncode, Call.WriteFileHeader Status.ok,
      Call.PixelsToPikPass cparams { is_last := true } io written.2.1
        SingleImageManager.create Status.ok] ∧
    passes r.trace = [{ cparams := cparams, is_last := true, image := io,
                        scope := ProgressiveMode.kFull }] ∧
    (r.compressed, r.aux_out) =
      ((env.PixelsToPikPass cparams { is_last := true } io written.2.2 written.2.1 aux_out
          SingleImageManager.create).2.1,
       (env.PixelsToPikPass cparams { is_last := true } io written.2.2 written.2.1 aux_out
          SingleImageManager.create).2.2.1) := by
  intro container sizes written
  have hz : ¬ (io.xsize = 0 ∨ io.ysize = 0) := by
    rintro (h | h)
    · exact hx h
    · exact hy h
  unfold PixelsToPik at hrun
  rw [if_neg hz] at hrun
  simp only [hb, hbase, hprog, PixelsToPik.singlePass] at hrun
  simp only [Bool.not_true, Bool.false_eq_true, if_false, ne_eq, not_true_eq_false,
    Bool.not_false, if_true] at hrun
  split at hrun
  · exact absurd hrun (by simp)
  · split at hrun
    · have := Option.some.inj hrun
      subst this
      simp at hok
    · rename_i hw
      split at hrun
      · have := Option.some.inj hrun
        subst this
        simp at hok
      · rename_i hp
        have := Option.some.inj hrun
        subst this
        simp only [List.cons_append, List.nil_append, List.singleton_append]
        refine ⟨?_, ?_, ?_⟩
        · simp only [container, sizes, written] at *
          rw [hw, hp]
        · simp [passes, Call.pass, SingleImageManager.create]
        · trivial

theorem PixelsToPik_single_pass_witness :
    toyImage.xsize ≠ 0 ∧ toyImage.ysize ≠ 0 ∧ toyImage.HasOriginalBitsPerSample = true ∧
    toyParams.lossless_base = "" ∧ toyParams.progressive_mode = false ∧
    PixelsToPik toyEnv toyParams toyImage [] [] = some
      { status := Status.ok, compressed := [64, 0, 1], aux_out := [],
        trace := [Call.MakeFileHeader, Call.CanEncode, Call.WriteFileHeader Status.ok,
          Call.PixelsToPikPass toyParams { is_last := true } toyImage 16
            SingleImageManager.create Status.ok] } ∧
    passes [Call.MakeFileHeader, Call.CanEncode, Call.WriteFileHeader Status.ok,
          Call.PixelsToPikPass toyParams { is_last := true } toyImage 16
            SingleImageManager.create Status.ok] =
      [{ cparams := toyParams, is_last := true, image := toyImage,
         scope := ProgressiveMode.kFull }] :=
  ⟨by decide, by decide, by decide, by decide, by decide, by decide,
    (PixelsToPik_single_pass toyEnv toyParams toyImage [] []
      { status := Status.ok, compressed := [64, 0, 1], aux_out := [],
        trace := [Call.MakeFileHeader, Call.CanEncode, Call.WriteFileHeader Status.ok,
          Call.PixelsToPikPass toyParams { is_last := true } toyImage 16
            SingleImageManager.create Status.ok] }
      (by decide) (by decide) (by decide) (by decide) (by decide) (by decide) rfl).2.1⟩

/-- C5: in the progressive branch the parameters of the passes follow this
schedule.  The LF-only pass: the caller's parameters with `lossless_mode =
false` and `adaptive_reconstruction = Off` (gradient, predict_lf, predict_hf as
configured).  The salient-HF pass (with a saliency extractor): in addition
`gradient = Off`, `predict_lf = false`, `predict_hf = false`.  The final HF
pass: as the salient-HF pass, with the configured `adaptive_reconstruction`.
The lossless pass (with lossless mode): as the final HF pass, with
`lossless_mode = true`.  The passes of every run are an initial segment of
this schedule, and all of it when the run succeeds.  The caller's parameters
are not modified: the saliency oracle, called after the first changes to the
copy, receives the caller's parameters. -/
theorem PixelsToPik_progressive_parameters (env : Env) (cparams : CompressParams)
    (io : CodecInOut) (compressed : PaddedBytes) (aux_out : PikInfo) (r : EncodeResult)
    (hbase : cparams.lossless_base = "") (hprog : cparams.progressive_mode = true)
    (hrun : PixelsToPik env cparams io compressed aux_out = some r) :
    ((passes r.trace).map Pass.cparams <+:
      [{ cparams with lossless_mode := false, adaptive_reconstruction := Override.kOff }] ++
      (if cparams.saliency_extractor_for_progressive_mode ≠ "" then
        [{ cparams with lossless_mode := false, adaptive_reconstruction := Override.kOff,
                        gradient := Override.kOff, predict_lf := false, predict_hf := false }]
       else []) ++
      [{ cparams with lossless_mode := false,
                      adaptive_reconstruction := cparams.adaptive_reconstruction,
                      gradient := Override.kOff, predict_lf := false, predict_hf := false }] ++
      (if cparams.lossless_mode then
        [{ cparams with lossless_mode := true,
                        adaptive_reconstruction := cparams.adaptive_reconstruction,
                        gradient := Override.kOff, predict_lf := false, predict_hf := false }]
       else [])) ∧
    (r.status = Status.ok →
      (passes r.trace).map Pass.cparams =
      [{ cparams with lossless_mode := false, adaptive_reconstruction := Override.kOff }] ++
      (if cparams.saliency_extractor_for_progressive_mode ≠ "" then
        [{ cparams with lossless_mode := false, adaptive_reconstruction := Override.kOff,
                        gradient := Override.kOff, predict_lf := false, predict_hf := false }]
       else []) ++
      [{ cparams with lossless_mode := false,
                      adaptive_reconstruction := cparams.adaptive_reconstruction,
                      gradient := Override.kOff, predict_lf := false, predict_hf := false }] ++
      (if cparams.lossless_mode then
        [{ cparams with lossless_mode := true,
                        adaptive_reconstruction := cparams.adaptive_reconstruction,
                        gradient := Override.kOff, predict_lf := false, predict_hf := false }]
       else [])) ∧
    (∀ (c : CompressParams) (st : Status),
      Call.ProduceSaliencyMap c st ∈ r.trace → c = cparams) := by
  rcases PixelsToPik_cases env cparams io compressed aux_out r hrun with
    h | h | h | ⟨_, _, t₁, t₂, t₃, t₄, st₁, st₂, st₃, st₄, st₅, st₆, h₁, h₂, h₃, h⟩
  · obtain ⟨_, ht, reason, hst⟩ := h
    rw [ht, hst]
    simp [passes]
  · exact absurd hbase h.1
  · rw [hprog] at h
    exact absurd h.2.1 (by simp)
  · have hfull : (passes ([Call.MakeFileHeader, Call.NewEncoder] ++
        progressiveCalls cparams io t₁ t₂ t₃ t₄ st₁ st₂ st₃ st₄ st₅ st₆)).map Pass.cparams =
      [{ cparams with lossless_mode := false, adaptive_reconstruction := Override.kOff }] ++
      (if cparams.saliency_extractor_for_progressive_mode ≠ "" then
        [{ cparams with lossless_mode := false, adaptive_reconstruction := Override.kOff,
                        gradient := Override.kOff, predict_lf := false, predict_hf := false }]
       else []) ++
      [{ cparams with lossless_mode := false,
                      adaptive_reconstruction := cparams.adaptive_reconstruction,
                      gradient := Override.kOff, predict_lf := false, predict_hf := false }] ++
      (if cparams.lossless_mode then
        [{ cparams with lossless_mode := true,
                        adaptive_reconstruction := cparams.adaptive_reconstruction,
                        gradient := Override.kOff, predict_lf := false, predict_hf := false }]
       else []) := by
      unfold progressiveCalls
      by_cases hs : cparams.saliency_extractor_for_progressive_mode = "" <;>
      cases hl : cparams.lossless_mode <;>
      simp [passes, Call.pass, hs, lfPassParams, salientPassParams, finalPassParams,
        losslessPassParams]
    refine ⟨?_, ?_, ?_⟩
    · rw [← hfull]
      exact List.IsPrefix.map _ h.passes_initial
    · intro hok
      rw [← hfull, (h.of_ok hok).1]
    · intro c st hc
      have := h.mem _ hc
      unfold progressiveCalls at this
      by_cases hs : cparams.saliency_extractor_for_progressive_mode = "" <;>
      cases hl : cparams.lossless_mode <;>
      simp [hs, hl] at this <;>
      exact this.1

theorem PixelsToPik_progressive_parameters_witness :
    PixelsToPik toyEnv toyProgressiveParams toyImage [] [] = some toyProgressiveRun ∧
    toyProgressiveRun.status = Status.ok ∧
    (passes toyProgressiveRun.trace).map Pass.cparams =
      [{ toyProgressiveParams with lossless_mode := false,
                                   adaptive_reconstruction := Override.kOff },
       { toyProgressiveParams with lossless_mode := false,
                                   adaptive_reconstruction := Override.kOff,
                                   gradient := Override.kOff, predict_lf := false,
                                   predict_hf := false },
       { toyProgressiveParams with lossless_mode := false,
                                   adaptive_reconstruction := Override.kDefault,
                                   gradient := Override.kOff, predict_lf := false,
                                   predict_hf := false },
       { toyProgressiveParams with lossless_mode := true,
                                   adaptive_reconstruction := Override.kDefault,
                                   gradient := Override.kOff, predict_lf := false,
                                   predict_hf := false }] :=
  ⟨by decide, by decide,
    (PixelsToPik_progressive_parameters toyEnv toyProgressiveParams toyImage [] []
      toyProgressiveRun (by decide) (by decide) (by decide)).2.1 (by decide)⟩

/-- C6: in every configuration, a successful run of `PixelsToPik` encodes
exactly one pass with `is_last = true`, and it is the final pass encoded: the
`is_last` flags of the passes are `false, ..., false, true`.  In every run,
successful or not, no pass is encoded after a pass marked last. -/
theorem PixelsToPik_one_last_pass (env : Env) (cparams : CompressParams) (io : CodecInOut)
    (compressed : PaddedBytes) (aux_out : PikInfo) (r : EncodeResult)
    (hrun : PixelsToPik env cparams io compressed aux_out = some r) :
    (r.status = Status.ok →
      ∃ n : Nat, (passes r.trace).map Pass.is_last = List.replicate n false ++ [true]) ∧
    (∀ (init rest : List Pass) (q : Pass),
      passes r.trace = init ++ q :: rest → q.is_last = true → rest = []) := by
  rcases PixelsToPik_last_pass_shape env cparams io compressed aux_out r hrun with
    ⟨ht, reason, hst⟩ | ⟨start, calls, n, h, hfull⟩
  · refine ⟨fun hok => ?_, fun init rest q hq => ?_⟩
    · rw [hst] at hok
      exact absurd hok (by simp)
    · rw [ht] at hq
      simp [passes] at hq
  · refine ⟨fun hok => ⟨n, ?_⟩, fun init rest q hq hlast => ?_⟩
    · rw [(h.of_ok hok).1, hfull]
    · have := nothing_after_last_flag ((passes r.trace).map Pass.is_last) _ n hfull
        (List.IsPrefix.map _ h.passes_initial) (init.map Pass.is_last) (rest.map Pass.is_last)
        (by rw [hq]; simp [hlast])
      simpa using this

theorem PixelsToPik_one_last_pass_witness :
    PixelsToPik toyFailingEnv toyProgressiveParams toyImage [] [] = some toyFailingRun ∧
    PixelsToPik toyEnv toyProgressiveParams toyImage [] [] = some toyProgressiveRun ∧
    (passes toyProgressiveRun.trace).map Pass.is_last = [false, false, false, true] ∧
    (passes toyFailingRun.trace).map Pass.is_last = [false, false, false, true] ∧
    (∃ n : Nat, (passes toyProgressiveRun.trace).map Pass.is_last =
      List.replicate n false ++ [true]) ∧
    (∀ (init rest : List Pass) (q : Pass),
      passes toyFailingRun.trace = init ++ q :: rest → q.is_last = true → rest = []) :=
  ⟨by decide, by decide, by decide, by decide,
    (PixelsToPik_one_last_pass toyEnv toyProgressiveParams toyImage [] [] toyProgressiveRun
      (by decide)).1 (by decide),
    (PixelsToPik_one_last_pass toyFailingEnv toyProgressiveParams toyImage [] [] toyFailingRun
      (by decide)).2⟩
/-- C7: in every branch of `PixelsToPik`, a call that fails (loading the
lossless base image, writing the header, producing the saliency map, encoding
a pass, finalizing) is the last call made, and `PixelsToPik` returns that
failure; `PixelsToPik` returns success only if no call it made failed. -/
theorem PixelsToPik_stops_at_first_failure (env : Env) (cparams : CompressParams)
    (io : CodecInOut) (compressed : PaddedBytes) (aux_out : PikInfo) (r : EncodeResult)
    (hrun : PixelsToPik env cparams io compressed aux_out = some r) :
    (∀ (init rest : List Call) (c : Call), r.trace = init ++ c :: rest → c.failed = true →
      rest = [] ∧ c.status = some r.status) ∧
    (r.status = Status.ok → ∀ c ∈ r.trace, c.failed = false) := by
  have key : (r.trace = [] ∧ ∃ reason, r.status = Status.failure reason) ∨
      ∃ start calls : List Call, (∀ c ∈ start, c.failed = false) ∧ r.Performs start calls := by
    rcases PixelsToPik_cases env cparams io compressed aux_out r hrun with
      h | ⟨_, t₁, t₂, st₁, st₂, st₃, h⟩ | ⟨_, _, pos, st₁, st₂, h⟩ |
      ⟨_, _, t₁, t₂, t₃, t₄, st₁, st₂, st₃, st₄, st₅, st₆, h₁, h₂, h₃, h⟩
    · exact Or.inl h.2
    · exact Or.inr ⟨_, _, by simp [Call.failed, Call.status], h⟩
    · exact Or.inr ⟨_, _, by simp [Call.failed, Call.status], h⟩
    · exact Or.inr ⟨_, _, by simp [Call.failed, Call.status], h⟩
  rcases key with ⟨ht, reason, hst⟩ | ⟨start, calls, hstart, h⟩
  · refine ⟨fun init rest c hc => ?_, fun hok => ?_⟩
    · rw [ht] at hc
      simp at hc
    · rw [hst] at hok
      exact absurd hok (by simp)
  · refine ⟨fun init rest c hc hf => h.failed_last hstart init rest c hc hf, fun hok => ?_⟩
    obtain ⟨ht, hnf⟩ := h.of_ok hok
    intro c hc
    rw [ht] at hc
    rcases List.mem_append.mp hc with hc | hc
    · exact hstart c hc
    · exact hnf c hc

theorem PixelsToPik_stops_at_first_failure_witness :
    PixelsToPik toyFailingEnv toyProgressiveParams toyImage [] [] = some toyFailingRun ∧
    toyFailingRun.status = Status.failure "Cannot write." ∧
    toyFailingRun.trace.getLast? =
      some (Call.AddPass (losslessPassParams toyProgressiveParams) { is_last := true }
        toyImage
        { mode := ProgressiveMode.kNonSalientHfOnly, use_adaptive_reconstruction := true,
          saliency_map := some [1], is_last_pass := false, internal := [] }
        (Status.failure "Cannot write.")) ∧
    (∀ (init rest : List Call) (c : Call), toyFailingRun.trace = init ++ c :: rest →
      c.failed = true → rest = [] ∧ c.status = some toyFailingRun.status) :=
  ⟨by decide, by decide, by decide,
    (PixelsToPik_stops_at_first_failure toyFailingEnv toyProgressiveParams toyImage [] []
      toyFailingRun (by decide)).1⟩
/-- C8: for a buffer without the foreign magic whose header parses,
`PikToPixels` decodes passes one after the other on one accumulator, created
fresh before the first pass (each pass is given the objects the previous one
left).  Whenever it returns it has decoded at least one pass.  If pass `k` is
the first for which the accumulator reports the last pass and passes 1..k
decode, then with enough fuel (`k` iterations) it returns having decoded
exactly these `k` passes, with success or the size-mismatch failure.  If pass
`k + 1` fails and the accumulator reported no last pass before, it returns
that failure having decoded exactly `k + 1` passes. -/
theorem PikToPixels_pass_loop (env : Env) (dparams : DecompressParams)
    (compressed : PaddedBytes) (io : CodecInOut) (aux_out : PikInfo)
    (container : FileHeader) (s₀ : DecodeState)
    (hmagic : IsBrunsliFile compressed = false)
    (hstart : PikToPixels.start env compressed io aux_out = (Status.ok, container, s₀)) :
    s₀.heap.transform = SingleImageManager.create ∧
    (∀ (fuel : Nat) (r : DecodeResult),
      PikToPixels env fuel dparams compressed io aux_out = some r →
      ∃ k, 1 ≤ k ∧ passCount r.trace = k ∧
        r.trace = s₀.trace ++ passCalls env dparams compressed container k s₀.heap) ∧
    (∀ (k fuel : Nat) (hk : DecoderHeap), 1 ≤ k → k ≤ fuel →
      passesDecoded env dparams compressed container k s₀.heap = some hk →
      hk.transform.IsLastPass = true →
      (∀ (j : Nat) (hj : DecoderHeap), 1 ≤ j → j < k →
        passesDecoded env dparams compressed container j s₀.heap = some hj →
        hj.transform.IsLastPass = false) →
      ∃ r, PikToPixels env fuel dparams compressed io aux_out = some r ∧
        passCount r.trace = k ∧
        r.trace = s₀.trace ++ passCalls env dparams compressed container k s₀.heap ∧
        (r.status = Status.ok ∨ r.status = Status.failure kSizeMismatch)) ∧
    (∀ (k fuel : Nat) (hk : DecoderHeap) (reason : String), k + 1 ≤ fuel →
      passesDecoded env dparams compressed container k s₀.heap = some hk →
      (env.PikPassToPixels dparams compressed container hk).1 = Status.failure reason →
      (∀ (j : Nat) (hj : DecoderHeap), 1 ≤ j → j ≤ k →
        passesDecoded env dparams compressed container j s₀.heap = some hj →
        hj.transform.IsLastPass = false) →
      ∃ r, PikToPixels env fuel dparams compressed io aux_out = some r ∧
        passCount r.trace = k + 1 ∧
        r.trace = s₀.trace ++ passCalls env dparams compressed container (k + 1) s₀.heap ∧
        r.status = Status.failure reason) := by
  have hheader : (PikToPixels.start env compressed io aux_out).1 = Status.ok := by rw [hstart]
  have hcont : (PikToPixels.start env compressed io aux_out).2.1 = container := by rw [hstart]
  have hs₀ : (PikToPixels.start env compressed io aux_out).2.2 = s₀ := by rw [hstart]
  have hcount₀ : passCount s₀.trace = 0 := by
    rw [← hs₀]
    exact passCount_start env compressed io aux_out
  have hfinish : ∀ x : Status × DecodeState,
      (PikToPixels.finish env dparams compressed x).trace = x.2.trace := by
    intro x
    obtain ⟨st, s⟩ := x
    cases st with
    | ok =>
      simp only [PikToPixels.finish]
      split <;> rfl
    | failure reason => rfl
  have hrun : ∀ fuel, PikToPixels env fuel dparams compressed io aux_out =
      (decodePasses env dparams compressed container fuel s₀).map
        (PikToPixels.finish env dparams compressed) := by
    intro fuel
    rw [PikToPixels_of_header_ok env fuel dparams compressed io aux_out hmagic hheader,
      hcont, hs₀]
  refine ⟨?_, ?_, ?_, ?_⟩
  · rw [← hs₀]
    rfl
  · intro fuel r hr
    rw [hrun fuel] at hr
    cases hd : decodePasses env dparams compressed container fuel s₀ with
    | none => simp [hd] at hr
    | some x =>
      obtain ⟨st, s'⟩ := x
      rw [hd, Option.map_some', Option.some.injEq] at hr
      obtain ⟨k, hk, ht⟩ := decodePasses_trace env dparams compressed container fuel _ _ _ hd
      refine ⟨k, hk, ?_, ?_⟩
      · rw [← hr, hfinish, ht, passCount_append, hcount₀, passCount_passCalls]
        omega
      · rw [← hr, hfinish, ht]
  · intro k fuel hk h1 hfuel hdec hlast hfirst
    have hd := decodePasses_first_last env dparams compressed container k fuel s₀ hk h1 hfuel
      hdec hlast hfirst
    refine ⟨_, by rw [hrun fuel, hd]; rfl, ?_, ?_, ?_⟩
    · rw [hfinish, passCount_append, hcount₀, passCount_passCalls]
      omega
    · rw [hfinish]
    · simp only [PikToPixels.finish]
      split
      · exact Or.inr rfl
      · exact Or.inl rfl
  · intro k fuel hk reason hfuel hdec hfail hfirst
    have hd := decodePasses_first_failure env dparams compressed container k fuel s₀ hk reason
      hfuel hdec hfail hfirst
    refine ⟨_, by rw [hrun fuel, hd]; rfl, ?_, ?_, ?_⟩
    · rw [hfinish, passCount_append, hcount₀, passCount_passCalls]
      omega
    · rw [hfinish]
    · rfl

theorem PikToPixels_pass_loop_witness :
    IsBrunsliFile toyStream = false ∧
    PikToPixels.start toyEnv toyStream toyOutput [] = (Status.ok, toyContainer, toyStart) ∧
    passesDecoded toyEnv toyDecompressParams toyStream toyContainer 3 toyStart.heap =
      some toyEnd ∧
    toyEnd.transform.IsLastPass = true ∧
    ∃ r, PikToPixels toyEnv 3 toyDecompressParams toyStream toyOutput [] = some r ∧
      passCount r.trace = 3 ∧
      r.trace = toyStart.trace ++
        passCalls toyEnv toyDecompressParams toyStream toyContainer 3 toyStart.heap ∧
      (r.status = Status.ok ∨ r.status = Status.failure kSizeMismatch) :=
  ⟨by decide, by decide, by decide, by decide,
    (PikToPixels_pass_loop toyEnv toyDecompressParams toyStream toyOutput [] toyContainer
      toyStart (by decide) (by decide)).2.2.1 3 3 toyEnd (by decide) (by decide) (by decide)
      (by decide)
      (fun j hj h1 h3 hd => by
        interval_cases j
        · have : hj = { toyStart.heap with
              reader := { data := toyStream, bits := 24 },
              io := { toyOutput with pixels := [0] } } :=
            (Option.some.inj hd).symm
          rw [this]
          rfl
        · have : hj = { toyStart.heap with
              reader := { data := toyStream, bits := 32 },
              io := { toyOutput with pixels := [0, 0] } } :=
            (Option.some.inj hd).symm
          rw [this]
          rfl)⟩
/-- C9: with `check_decompressed_size` enabled, `PikToPixels` returns success
only if the pass loop ended with the reader position equal to the length of
the buffer; when all passes decode and the position differs it returns the
size-mismatch failure and leaves the image as the passes left it (`enc_size`
is not set).  With the check disabled the position is not examined: the
result is the same whatever `Position` returns.  On every success `enc_size`
is the length of the buffer. -/
theorem PikToPixels_size_check (env : Env) (fuel : Nat) (dparams : DecompressParams)
    (compressed : PaddedBytes) (io : CodecInOut) (aux_out : PikInfo) :
    (dparams.check_decompressed_size = true →
      ∀ r, PikToPixels env fuel dparams compressed io aux_out = some r →
        r.status = Status.ok →
        ∃ s, decodePasses env dparams compressed
            (PikToPixels.start env compressed io aux_out).2.1 fuel
            (PikToPixels.start env compressed io aux_out).2.2 = some (Status.ok, s) ∧
          env.Position s.heap.reader = compressed.length) ∧
    (dparams.check_decompressed_size = true → IsBrunsliFile compressed = false →
      (PikToPixels.start env compressed io aux_out).1 = Status.ok →
      ∀ s, decodePasses env dparams compressed
          (PikToPixels.start env compressed io aux_out).2.1 fuel
          (PikToPixels.start env compressed io aux_out).2.2 = some (Status.ok, s) →
        env.Position s.heap.reader ≠ compressed.length →
        PikToPixels env fuel dparams compressed io aux_out =
          some { status := Status.failure kSizeMismatch, image := s.heap.io,
                 aux_out := s.heap.aux_out, trace := s.trace }) ∧
    (dparams.check_decompressed_size = false →
      ∀ position : BitReader → Nat,
        PikToPixels { env with Position := position } fuel dparams compressed io aux_out =
          PikToPixels env fuel dparams compressed io aux_out) ∧
    (∀ r, PikToPixels env fuel dparams compressed io aux_out = some r →
      r.status = Status.ok → r.image.enc_size = compressed.length) := by
  have hfail : ∀ r, PikToPixels env fuel dparams compressed io aux_out = some r →
      r.status = Status.ok →
      IsBrunsliFile compressed = false ∧
      (PikToPixels.start env compressed io aux_out).1 = Status.ok := by
    intro r hr hok
    cases hm : IsBrunsliFile compressed with
    | true =>
      simp only [PikToPixels, hm, if_true, Option.some.injEq] at hr
      rw [← hr] at hok
      simp [BrunsliToPixels] at hok
    | false =>
      refine ⟨rfl, ?_⟩
      cases hh : (PikToPixels.start env compressed io aux_out).1 with
      | ok => rfl
      | failure reason =>
        simp only [PikToPixels, hm, Bool.false_eq_true, if_false, hh, Option.some.injEq] at hr
        rw [← hr] at hok
        simp at hok
  refine ⟨?_, ?_, ?_, ?_⟩
  · intro hcheck r hr hok
    obtain ⟨hm, hh⟩ := hfail r hr hok
    rw [PikToPixels_of_header_ok env fuel dparams compressed io aux_out hm hh] at hr
    cases hd : decodePasses env dparams compressed
        (PikToPixels.start env compressed io aux_out).2.1 fuel
        (PikToPixels.start env compressed io aux_out).2.2 with
    | none => simp [hd] at hr
    | some x =>
      obtain ⟨st, s⟩ := x
      rw [hd, Option.map_some', Option.some.injEq] at hr
      cases st with
      | failure reason =>
        rw [← hr] at hok
        simp [PikToPixels.finish] at hok
      | ok =>
        refine ⟨s, rfl, ?_⟩
        by_contra hne
        rw [← hr] at hok
        simp [PikToPixels.finish, hcheck, hne] at hok
  · intro hcheck hm hh s hd hne
    rw [PikToPixels_of_header_ok env fuel dparams compressed io aux_out hm hh, hd]
    simp [PikToPixels.finish, hcheck, hne]
  · intro hcheck position
    have hloop : ∀ (container : FileHeader) (n : Nat) (s : DecodeState),
        decodePasses { env with Position := position } dparams compressed container n s =
          decodePasses env dparams compressed container n s := by
      intro container n
      induction n with
      | zero => intro s; rfl
      | succ n ih =>
        intro s
        unfold decodePasses
        simp only [ih]
    unfold PikToPixels
    have hstart : PikToPixels.start { env with Position := position } compressed io aux_out =
        PikToPixels.start env compressed io aux_out := rfl
    simp only [hstart, hloop, hcheck, Bool.false_and, Bool.false_eq_true, if_false]
  · intro r hr hok
    obtain ⟨hm, hh⟩ := hfail r hr hok
    rw [PikToPixels_of_header_ok env fuel dparams compressed io aux_out hm hh] at hr
    cases hd : decodePasses env dparams compressed
        (PikToPixels.start env compressed io aux_out).2.1 fuel
        (PikToPixels.start env compressed io aux_out).2.2 with
    | none => simp [hd] at hr
    | some x =>
      obtain ⟨st, s⟩ := x
      rw [hd, Option.map_some', Option.some.injEq] at hr
      cases st with
      | failure reason =>
        rw [← hr] at hok
        simp [PikToPixels.finish] at hok
      | ok =>
        rw [← hr] at hok ⊢
        simp only [PikToPixels.finish] at hok ⊢
        split at hok
        · simp at hok
        · rename_i hc
          rw [if_neg hc]

theorem PikToPixels_size_check_witness :
    (PikToPixels toyEnv 3 toyDecompressParams toyStream toyOutput [] = some toyDecoded ∧
      toyDecoded.status = Status.ok ∧ toyDecoded.image.enc_size = toyStream.length) ∧
    (toyDecompressParams.check_decompressed_size = true ∧
      toyEnv.Position toyLongLoopEnd.heap.reader = 4 ∧ toyLongStream.length = 6 ∧
      PikToPixels toyEnv 3 toyDecompressParams toyLongStream toyOutput [] =
        some { status := Status.failure kSizeMismatch, image := toyLongLoopEnd.heap.io,
               aux_out := toyLongLoopEnd.heap.aux_out, trace := toyLongLoopEnd.trace }) :=
  ⟨⟨by decide, by decide,
     (PikToPixels_size_check toyEnv 3 toyDecompressParams toyStream toyOutput []).2.2.2
       toyDecoded (by decide) (by decide)⟩,
   ⟨by decide, by decide, by decide,
     (PikToPixels_size_check toyEnv 3 toyDecompressParams toyLongStream toyOutput []).2.1
       (by decide) (by decide) (by decide) toyLongLoopEnd (by decide) (by decide)⟩⟩
/-- C11: `PikToPixels` takes the foreign-format route exactly when the buffer
has at least 7 bytes and its first 7 bytes are 0x0A 0x04 'B' 0xD2 0xD5 'N'
0x12 ('B' is 66, 'N' is 78).  On that route it returns the not-implemented
failure, whatever the fuel, having made no other call (no header read, no pass
decoded) and with the image and the statistics as given.  A buffer shorter
than 7 bytes, or differing from the magic in one of the first 7 bytes, is not
on that route: every run that returns starts by reading the native header,
and a header that does not parse is the failure returned, with the image as
given. -/
theorem PikToPixels_foreign_route (env : Env) (fuel : Nat) (dparams : DecompressParams)
    (compressed : PaddedBytes) (io : CodecInOut) (aux_out : PikInfo) :
    (IsBrunsliFile compressed = true ↔
      7 ≤ compressed.length ∧
        compressed.take 7 = [0x0A, 0x04, 66, 0xD2, 0xD5, 78, 0x12]) ∧
    (IsBrunsliFile compressed = true →
      PikToPixels env fuel dparams compressed io aux_out =
        some { status := Status.failure kBrunsliNotImplemented, image := io,
               aux_out := aux_out, trace := [DecodeCall.BrunsliToPixels] }) ∧
    (compressed.length < 7 → IsBrunsliFile compressed = false) ∧
    (∀ i, i < 7 → compressed[i]? ≠ kBrunsliMagic[i]? → IsBrunsliFile compressed = false) ∧
    (IsBrunsliFile compressed = false →
      ∀ r, PikToPixels env fuel dparams compressed io aux_out = some r →
        ∃ rest, r.trace =
          DecodeCall.ReadFileHeader (env.ReadFileHeader (BitReader.create compressed)).1 ::
            rest) ∧
    (IsBrunsliFile compressed = false →
      ∀ reason, (env.ReadFileHeader (BitReader.create compressed)).1 = Status.failure reason →
        PikToPixels env fuel dparams compressed io aux_out =
          some { status := Status.failure reason, image := io, aux_out := aux_out,
                 trace := [DecodeCall.ReadFileHeader (Status.failure reason)] }) := by
  have hfalse : ∀ {p : Prop}, (IsBrunsliFile compressed = true → p → False) → p →
      IsBrunsliFile compressed = false := by
    intro p h hp
    cases hm : IsBrunsliFile compressed with
    | false => rfl
    | true => exact absurd hp (h hm)
  refine ⟨IsBrunsliFile_iff compressed, ?_, ?_, ?_, ?_, ?_⟩
  · intro hm
    simp only [PikToPixels, hm, if_true, BrunsliToPixels]
  · refine hfalse (fun hm hlen => ?_)
    have := ((IsBrunsliFile_iff compressed).mp hm).1
    omega
  · intro i hi
    refine hfalse (fun hm hne => hne ?_)
    have htake := ((IsBrunsliFile_iff compressed).mp hm).2
    have : (compressed.take 7)[i]? = compressed[i]? := List.getElem?_take_of_lt hi
    rw [← this, htake]
    rfl
  · intro hm r hr
    have hstart : (PikToPixels.start env compressed io aux_out).1 =
        (env.ReadFileHeader (BitReader.create compressed)).1 := rfl
    cases hh : (PikToPixels.start env compressed io aux_out).1 with
    | failure reason =>
      simp only [PikToPixels, hm, Bool.false_eq_true, if_false, hh, Option.some.injEq] at hr
      rw [← hstart, hh, ← hr]
      exact ⟨[], rfl⟩
    | ok =>
      rw [PikToPixels_of_header_ok env fuel dparams compressed io aux_out hm hh] at hr
      cases hd : decodePasses env dparams compressed
          (PikToPixels.start env compressed io aux_out).2.1 fuel
          (PikToPixels.start env compressed io aux_out).2.2 with
      | none => simp [hd] at hr
      | some x =>
        obtain ⟨st, s⟩ := x
        rw [hd, Option.map_some', Option.some.injEq] at hr
        obtain ⟨k, _, ht⟩ := decodePasses_trace env dparams compressed _ fuel _ _ _ hd
        have htrace : r.trace = s.trace := by
          rw [← hr]
          cases st with
          | ok =>
            simp only [PikToPixels.finish]
            split <;> rfl
          | failure reason => rfl
        rw [htrace, ht]
        unfold PikToPixels.start
        simp only
        split
        · exact ⟨_, rfl⟩
        · exact ⟨_, rfl⟩
  · intro hm reason hh
    have hstart : (PikToPixels.start env compressed io aux_out).1 = Status.failure reason := hh
    simp only [PikToPixels, hm, Bool.false_eq_true, if_false, hstart]

theorem PikToPixels_foreign_route_witness :
    IsBrunsliFile [0x0A, 0x04, 66, 0xD2, 0xD5, 78, 0x12, 1, 2] = true ∧
    PikToPixels toyEnv 3 toyDecompressParams [0x0A, 0x04, 66, 0xD2, 0xD5, 78, 0x12, 1, 2]
        toyOutput [] =
      some { status := Status.failure kBrunsliNotImplemented, image := toyOutput,
             aux_out := [], trace := [DecodeCall.BrunsliToPixels] } ∧
    IsBrunsliFile [0x0A, 0x04, 66] = false ∧
    IsBrunsliFile [0x0A, 0x04, 66, 0xD2, 0xD5, 79, 0x12, 1, 2] = false :=
  ⟨by decide,
    (PikToPixels_foreign_route toyEnv 3 toyDecompressParams
      [0x0A, 0x04, 66, 0xD2, 0xD5, 78, 0x12, 1, 2] toyOutput []).2.1 (by decide),
    (PikToPixels_foreign_route toyEnv 3 toyDecompressParams [0x0A, 0x04, 66]
      toyOutput []).2.2.1 (by decide),
    (PikToPixels_foreign_route toyEnv 3 toyDecompressParams
      [0x0A, 0x04, 66, 0xD2, 0xD5, 79, 0x12, 1, 2] toyOutput []).2.2.2.1 5 (by decide)
      (by decide)⟩

/-- C12, as stated, fails: the result depends on preview bits that are among
the seven bytes `PikToPixels` looks at before it reads the header.  The codec
with a one-byte header reads from the cursor on (`ReadsFromCursor`).
`toyByteStream` and `kBrunsliMagic` have the same length and the same bits
outside the ten preview bits that follow the header of `toyByteStream`.
`PikToPixels` decodes the first one (successfully with the size check
disabled, up to the size mismatch with the check enabled: either way the image
holds three pixels) and sends the second one to the foreign decoder, which
fails and leaves the image as given. -/
theorem PikToPixels_preview_foreign_magic :
    ReadsFromCursor toyByteEnv ∧
    toyByteEnv.ReadFileHeader (BitReader.create toyByteStream) =
      (Status.ok, toyByteHeaderEnd, toyByteContainer) ∧
    kBrunsliMagic.length = toyByteStream.length ∧
    (∀ i, i < toyByteHeaderEnd.bits ∨
        toyByteHeaderEnd.bits + toyByteContainer.preview_size_bits ≤ i →
      bitAt kBrunsliMagic i = bitAt toyByteStream i) ∧
    (PikToPixels toyByteEnv 3 toyUncheckedParams toyByteStream toyOutput []).map
        (fun r => (r.status, r.image)) =
      some (Status.ok, { toyOutput with pixels := [0, 0, 0], enc_size := 7 }) ∧
    (PikToPixels toyByteEnv 3 toyUncheckedParams kBrunsliMagic toyOutput []).map
        (fun r => (r.status, r.image)) =
      some (Status.failure kBrunsliNotImplemented, toyOutput) ∧
    (PikToPixels toyByteEnv 3 toyDecompressParams toyByteStream toyOutput []).map
        (fun r => (r.status, r.image)) =
      some (Status.failure kSizeMismatch, { toyOutput with pixels := [0, 0, 0] }) ∧
    (PikToPixels toyByteEnv 3 toyDecompressParams kBrunsliMagic toyOutput []).map
        (fun r => (r.status, r.image)) =
      some (Status.failure kBrunsliNotImplemented, toyOutput) := by
  refine ⟨toyByteEnv_readsFromCursor, by decide, by decide, ?_, by decide, by decide,
    by decide, by decide⟩
  intro i hi
  by_cases h56 : i < 56
  · have key : ∀ j, j < 56 → (j < 8 ∨ 8 + 10 ≤ j) →
        bitAt kBrunsliMagic j = bitAt toyByteStream j := by decide
    exact key i h56 hi
  · rw [bitAt_of_le kBrunsliMagic i (by simp [kBrunsliMagic]; omega),
      bitAt_of_le toyByteStream i (by simp [toyByteStream]; omega)]

/-- C12 (amended): when the header parses, `PikToPixels` skips exactly
`preview.size_bits` bits after the header before it decodes the first pass:
the first pass is given the reader `preview.size_bits` bits after the end of
the header, and the skip is recorded if and only if that size is not 0.  Its
result does not depend on the preview payload, for a header parser and a pass
decoder that read from the cursor on (`ReadsFromCursor`), as long as the
payload does not decide the route: on every buffer of the same length with
the same bits outside the `preview.size_bits` bits that follow the header,
and which carries the foreign magic if and only if the first buffer does,
`PikToPixels` returns the same status and the same image (and returns
exactly when it returns on the first buffer). -/
theorem PikToPixels_preview_skipped (env : Env) (dparams : DecompressParams)
    (compressed : PaddedBytes) (io : CodecInOut) (aux_out : PikInfo)
    (r₁ : BitReader) (c : FileHeader)
    (hheader : env.ReadFileHeader (BitReader.create compressed) = (Status.ok, r₁, c)) :
    (IsBrunsliFile compressed = false →
      ∀ (fuel : Nat) (r : DecodeResult),
        PikToPixels env fuel dparams compressed io aux_out = some r →
        ∃ (st : Status) (after : DecoderHeap) (rest : List DecodeCall),
          r.trace = DecodeCall.ReadFileHeader Status.ok ::
            ((if c.preview_size_bits ≠ 0 then [DecodeCall.SkipBits c.preview_size_bits]
              else []) ++
             DecodeCall.PikPassToPixels
               { reader := { data := r₁.data, bits := r₁.bits + c.preview_size_bits },
                 io := io, aux_out := aux_out, transform := SingleImageManager.create }
               st after :: rest)) ∧
    (ReadsFromCursor env →
      ∀ other : PaddedBytes, other.length = compressed.length →
        IsBrunsliFile other = IsBrunsliFile compressed →
        (∀ i, i < r₁.bits ∨ r₁.bits + c.preview_size_bits ≤ i →
          bitAt other i = bitAt compressed i) →
        ∀ fuel : Nat,
          (PikToPixels env fuel dparams other io aux_out).map (fun r => (r.status, r.image)) =
            (PikToPixels env fuel dparams compressed io aux_out).map
              (fun r => (r.status, r.image))) := by
  have hst := start_skips env compressed io aux_out r₁ c hheader
  refine ⟨?_, ?_⟩
  · intro hm fuel r hr
    have hh : (PikToPixels.start env compressed io aux_out).1 = Status.ok := by rw [hst]
    rw [PikToPixels_of_header_ok env fuel dparams compressed io aux_out hm hh] at hr
    cases hd : decodePasses env dparams compressed
        (PikToPixels.start env compressed io aux_out).2.1 fuel
        (PikToPixels.start env compressed io aux_out).2.2 with
    | none => simp [hd] at hr
    | some x =>
      rw [hd, Option.map_some', Option.some.injEq] at hr
      obtain ⟨k, hk, ht⟩ := decodePasses_trace env dparams compressed _ fuel _ _ _ hd
      obtain ⟨k, rfl⟩ : ∃ j, k = j + 1 := ⟨k - 1, by omega⟩
      rw [← hr, PikToPixels.finish_trace, ht, hst]
      simp only [passCalls, List.cons_append]
      exact ⟨_, _, _, rfl⟩
  · intro hdet other hlen hroute hbits fuel
    exact PikToPixels_same_route hdet fuel dparams compressed other io aux_out r₁ c hheader
      hroute hlen hbits

theorem PikToPixels_preview_skipped_witness :
    toyBitEnv.ReadFileHeader (BitReader.create toyBitStream) =
      (Status.ok, toyBitHeaderEnd, toyBitContainer) ∧
    toyBitStreamOther ≠ toyBitStream ∧
    (PikToPixels toyBitEnv 1 toyDecompressParams toyBitStream toyOutput []).map
        (fun r => (r.status, r.image)) =
      some (Status.ok, { toyOutput with pixels := [1], enc_size := 2 }) ∧
    (PikToPixels toyBitEnv 1 toyDecompressParams toyBitStreamOther toyOutput []).map
        (fun r => (r.status, r.image)) =
      (PikToPixels toyBitEnv 1 toyDecompressParams toyBitStream toyOutput []).map
        (fun r => (r.status, r.image)) :=
  ⟨by decide, by decide, by decide,
    (PikToPixels_preview_skipped toyBitEnv toyDecompressParams toyBitStream toyOutput []
      toyBitHeaderEnd toyBitContainer (by decide)).2 toyBitEnv_readsFromCursor
      toyBitStreamOther (by decide) (by decide)
      (fun i hi => by
        by_cases h16 : i < 16
        · have key : ∀ j, j < 16 → (j < 4 ∨ 4 + 3 ≤ j) →
              bitAt toyBitStreamOther j = bitAt toyBitStream j := by decide
          exact key i h16 hi
        · rw [bitAt_of_le toyBitStreamOther i (by simp [toyBitStreamOther]; omega),
            bitAt_of_le toyBitStream i (by simp [toyBitStream]; omega)])
      1⟩

/-- C13, as stated, fails: on a size mismatch the image is not the one given.
The concrete decoder reads `toyLongStream` (six bytes) up to the fourth byte:
the two passes it decoded have put their pixels into the image, and
`PikToPixels` returns the size-mismatch failure with that image. -/
theorem PikToPixels_size_mismatch_image_changed :
    PikToPixels toyEnv 3 toyDecompressParams toyLongStream toyOutput [] =
      some { status := Status.failure kSizeMismatch,
             image := { toyOutput with pixels := [0, 1] },
             aux_out := [], trace := toyLongLoopEnd.trace } ∧
    ({ toyOutput with pixels := [0, 1] } : CodecInOut) ≠ toyOutput := by
  constructor
  · decide
  · decide

/-- C13 (amended): when `PikToPixels` fails because of the unimplemented foreign
format or because the header does not parse, the image it returns is the image
it was given.  When it fails because of a size mismatch (the passes decoded,
the check is enabled, the reader is not at the end of the buffer), the image
is the one the decoded passes left; `PikToPixels` itself changes nothing in
it (`enc_size` is not set). -/
theorem PikToPixels_failure_image (env : Env) (fuel : Nat) (dparams : DecompressParams)
    (compressed : PaddedBytes) (io : CodecInOut) (aux_out : PikInfo) (r : DecodeResult)
    (hrun : PikToPixels env fuel dparams compressed io aux_out = some r) :
    (IsBrunsliFile compressed = true →
      r.status = Status.failure kBrunsliNotImplemented ∧ r.image = io) ∧
    (IsBrunsliFile compressed = false →
      ∀ reason, (env.ReadFileHeader (BitReader.create compressed)).1 = Status.failure reason →
        r.status = Status.failure reason ∧ r.image = io) ∧
    (IsBrunsliFile compressed = false →
      (env.ReadFileHeader (BitReader.create compressed)).1 = Status.ok →
      dparams.check_decompressed_size = true →
      ∀ s, decodePasses env dparams compressed
          (PikToPixels.start env compressed io aux_out).2.1 fuel
          (PikToPixels.start env compressed io aux_out).2.2 = some (Status.ok, s) →
        env.Position s.heap.reader ≠ compressed.length →
        r.status = Status.failure kSizeMismatch ∧ r.image = s.heap.io) := by
  refine ⟨?_, ?_, ?_⟩
  · intro hm
    simp only [PikToPixels, hm, if_true, BrunsliToPixels, Option.some.injEq] at hrun
    rw [← hrun]
    exact ⟨rfl, rfl⟩
  · intro hm reason hh
    have hstart : (PikToPixels.start env compressed io aux_out).1 = Status.failure reason := hh
    simp only [PikToPixels, hm, Bool.false_eq_true, if_false, hstart, Option.some.injEq] at hrun
    rw [← hrun]
    exact ⟨rfl, rfl⟩
  · intro hm hh hcheck s hd hne
    have hstart : (PikToPixels.start env compressed io aux_out).1 = Status.ok := hh
    rw [PikToPixels_of_header_ok env fuel dparams compressed io aux_out hm hstart, hd,
      Option.map_some', Option.some.injEq] at hrun
    rw [← hrun]
    simp [PikToPixels.finish, hcheck, hne]

theorem PikToPixels_failure_image_witness :
    (PikToPixels toyEnv 3 toyDecompressParams [64] toyOutput [] =
        some { status := Status.failure "Truncated header.", image := toyOutput, aux_out := [],
               trace := [DecodeCall.ReadFileHeader (Status.failure "Truncated header.")] } ∧
      ({ status := Status.failure "Truncated header.", image := toyOutput, aux_out := [],
         trace := [DecodeCall.ReadFileHeader (Status.failure "Truncated header.")] } :
        DecodeResult).image = toyOutput) ∧
    (PikToPixels toyEnv 3 toyDecompressParams toyLongStream toyOutput [] =
        some { status := Status.failure kSizeMismatch, image := toyLongLoopEnd.heap.io,
               aux_out := [], trace := toyLongLoopEnd.trace } ∧
      ({ status := Status.failure kSizeMismatch, image := toyLongLoopEnd.heap.io,
         aux_out := [], trace := toyLongLoopEnd.trace } : DecodeResult).image =
        toyLongLoopEnd.heap.io) :=
  ⟨⟨by decide,
    ((PikToPixels_failure_image toyEnv 3 toyDecompressParams [64] toyOutput []
      { status := Status.failure "Truncated header.", image := toyOutput, aux_out := [],
        trace := [DecodeCall.ReadFileHeader (Status.failure "Truncated header.")] }
      (by decide)).2.1 (by decide) "Truncated header." (by decide)).2⟩,
   ⟨by decide,
    ((PikToPixels_failure_image toyEnv 3 toyDecompressParams toyLongStream toyOutput []
      { status := Status.failure kSizeMismatch, image := toyLongLoopEnd.heap.io,
        aux_out := [], trace := toyLongLoopEnd.trace }
      (by decide)).2.2 (by decide) (by decide) (by decide) toyLongLoopEnd (by decide)
      (by decide)).2⟩⟩

/-! # Coefficient tiers and polynomial evaluation -/

/-- C16: for a block side `N` that is a positive multiple of 8, the three
tiers of coefficients (LLF: the top `(N/8) x (N/8)` sub-block; LF: the rest of
the top `(N/4) x (N/4)` sub-block; HF: everything else) are pairwise disjoint
and together cover the block; LLF has `(N/8)^2` coefficients, LLF and LF
together `(N/4)^2`, the block `N^2`, and `(N/8)^2 < (N/4)^2 < N^2`. -/
theorem coefficient_tiers (N : Nat) (hpos : 0 < N) (h8 : 8 ∣ N) :
    Disjoint (llfCoefficients N) (lfCoefficients N) ∧
    Disjoint (llfCoefficients N) (hfCoefficients N) ∧
    Disjoint (lfCoefficients N) (hfCoefficients N) ∧
    llfCoefficients N ∪ lfCoefficients N ∪ hfCoefficients N = blockCoefficients N ∧
    (llfCoefficients N).card = (N / 8) ^ 2 ∧
    (llfCoefficients N ∪ lfCoefficients N).card = (N / 4) ^ 2 ∧
    (blockCoefficients N).card = N ^ 2 ∧
    (N / 8) ^ 2 < (N / 4) ^ 2 ∧ (N / 4) ^ 2 < N ^ 2 := by
  obtain ⟨m, rfl⟩ := h8
  have hm : 0 < m := by omega
  refine ⟨?_, ?_, ?_, ?_, ?_, ?_, ?_, ?_, ?_⟩
  · rw [Finset.disjoint_left]
    intro p h₁ h₂
    simp only [llfCoefficients, lfCoefficients, isLf, Finset.mem_filter, Bool.and_eq_true,
      Bool.not_eq_true'] at h₁ h₂
    rw [h₁.2] at h₂
    exact absurd h₂.2.2 (by simp)
  · rw [Finset.disjoint_left]
    intro p h₁ h₂
    simp only [llfCoefficients, hfCoefficients, isHf, Finset.mem_filter, Bool.and_eq_true,
      Bool.not_eq_true'] at h₁ h₂
    rw [h₁.2] at h₂
    exact absurd h₂.2.1 (by simp)
  · rw [Finset.disjoint_left]
    intro p h₁ h₂
    simp only [lfCoefficients, hfCoefficients, isHf, Finset.mem_filter, Bool.and_eq_true,
      Bool.not_eq_true'] at h₁ h₂
    rw [h₁.2] at h₂
    exact absurd h₂.2.2 (by simp)
  · ext p
    simp only [llfCoefficients, lfCoefficients, hfCoefficients, isHf, Finset.mem_union,
      Finset.mem_filter, Bool.and_eq_true, Bool.not_eq_true']
    constructor
    · rintro ((h | h) | h) <;> exact h.1
    · intro h
      cases h₁ : isLlf (8 * m) p with
      | true => exact Or.inl (Or.inl ⟨h, rfl⟩)
      | false =>
        cases h₂ : isLf (8 * m) p with
        | true => exact Or.inl (Or.inr ⟨h, rfl⟩)
        | false => exact Or.inr ⟨h, rfl, rfl⟩
  · rw [llfCoefficients_eq, Finset.card_product, Finset.card_range]
    ring
  · rw [llf_union_lf_eq, Finset.card_product, Finset.card_range]
    ring
  · rw [blockCoefficients, Finset.card_product, Finset.card_range]
    ring
  · have h₁ : 8 * m / 8 = m := by omega
    have h₂ : 8 * m / 4 = 2 * m := by omega
    rw [h₁, h₂]
    nlinarith
  · have h₂ : 8 * m / 4 = 2 * m := by omega
    rw [h₂]
    nlinarith

theorem coefficient_tiers_witness :
    0 < 8 ∧ 8 ∣ 8 ∧
    (llfCoefficients 8).card = 1 ∧ (llfCoefficients 8 ∪ lfCoefficients 8).card = 4 ∧
    (blockCoefficients 8).card = 64 ∧
    llfCoefficients 8 ∪ lfCoefficients 8 ∪ hfCoefficients 8 = blockCoefficients 8 :=
  ⟨by decide, by decide,
    (coefficient_tiers 8 (by decide) (by decide)).2.2.2.2.1,
    (coefficient_tiers 8 (by decide) (by decide)).2.2.2.2.2.1,
    (coefficient_tiers 8 (by decide) (by decide)).2.2.2.2.2.2.1,
    (coefficient_tiers 8 (by decide) (by decide)).2.2.2.1⟩

/-- C17: in exact arithmetic (over any commutative ring),
`RationalPolynomial::EvaluatePolynomial` returns the Chebyshev series of its
coefficients: the sum over `k < N` of `c[k] * T_k(x)`, where `N` is the number
of coefficients, `T_0 = 1`, `T_1 = x` and `T_{k+1} = 2x*T_k - T_{k-1}`. -/
theorem EvaluatePolynomial_eq_chebyshev_series {R : Type} [CommRing R] (x : R)
    (coefficients : List R) :
    RationalPolynomial.EvaluatePolynomial x coefficients =
      Finset.sum (Finset.range coefficients.length)
        (fun k => coefficients.getD k 0 * chebyshevT x k) := by
  unfold RationalPolynomial.EvaluatePolynomial
  simp only
  rw [ClenshawRecursion_fst]
  cases coefficients with
  | nil => simp
  | cons a rest => simp


end Pik
